import Mathlib

/-!
Verification of the download tool `src/tools/dl.c` of the megatools
repository.  The C source is shallowly embedded below:

* the two link regexes built in `main` (`file_regex`, `folder_regex`,
  lines 208-212) become the executable parsers `parseFileLink` /
  `parseFolderLink` over `List Char`, with `G_REGEX_CASELESS` modelled by
  comparing `Char.toLower` images (both regexes are ASCII, and PCRE
  caselessness without UCP is ASCII case folding);
* the retry loop shared by `dl_sync_file` (lines 80-109) and `main`
  (lines 234-274) becomes `retryLoop`;
* `dl_sync_file` / `dl_sync_dir` (lines 63-171) become `dl_sync_file`,
  `dl_sync_dir_core`, `dl_sync_children`, `dl_sync_node` over an explicit
  filesystem state `World`;
* the status callback (lines 42-59) becomes `status_callback`;
* `main` (lines 173-333) becomes `runMain`.
-/

namespace Megadl

/-! ### The token alphabet `[a-z0-9_-]` matched caselessly.

A character matches the caseless class exactly when its ASCII lower-casing
lies in the class. -/

def isLinkChar (c : Char) : Bool :=
  let n := c.toLower.toNat
  (97 ≤ n && n ≤ 122) || (48 ≤ n && n ≤ 57) || n == 95 || n == 45

/-! ### Parser combinators for the two anchored regexes

`litCI pat cs` consumes a caseless literal, `takeLink n cs` consumes
exactly `n` characters of the token class, returning them as a capture.
Both regexes are deterministic (no backtracking can change the outcome:
the optional `s` of `https?` is followed by `:`, the optional `.co` of
the host by `.nz` vs `.n`, and the counted classes are fixed-width), so
sequential parsing is a faithful embedding of the PCRE match. -/

def litCI : List Char → List Char → Option (List Char)
  | [], cs => some cs
  | _ :: _, [] => none
  | p :: ps, c :: cs => if c.toLower = p.toLower then litCI ps cs else none

def takeLink : Nat → List Char → Option (List Char × List Char)
  | 0, cs => some ([], cs)
  | _ + 1, [] => none
  | n + 1, c :: cs =>
    if isLinkChar c then (takeLink n cs).map (fun hr => (c :: hr.1, hr.2)) else none

/-! ### The scheme `https?` and the host `mega(\.co)?\.nz` -/

def parseScheme (cs : List Char) : Option (List Char) :=
  match litCI ['h', 't', 't', 'p'] cs with
  | none => none
  | some [] => some []
  | some (c :: r) => if c.toLower = 's' then some r else some (c :: r)

def parseHost (cs : List Char) : Option (List Char) :=
  match litCI ['m', 'e', 'g', 'a'] cs with
  | none => none
  | some r =>
    match litCI ['.', 'c', 'o', '.', 'n', 'z'] r with
    | some r2 => some r2
    | none => litCI ['.', 'n', 'z'] r

/-- The scheme grammar `https?`, caselessly. -/
def schemeOkL (s : List Char) : Prop :=
  s.map Char.toLower = ['h', 't', 't', 'p'] ∨ s.map Char.toLower = ['h', 't', 't', 'p', 's']

/-- The host grammar `mega(\.co)?\.nz`, caselessly. -/
def hostOkL (h : List Char) : Prop :=
  h.map Char.toLower = ['m', 'e', 'g', 'a', '.', 'n', 'z'] ∨
    h.map Char.toLower = ['m', 'e', 'g', 'a', '.', 'c', 'o', '.', 'n', 'z']

/-! ### The two anchored link grammars and the classifier

`file_regex  = ^https?://mega(\.co)?\.nz/#!([a-z0-9_-]{8})!([a-z0-9_-]{43})$` (caseless)
`folder_regex = ^https?://mega(\.co)?\.nz/#F!([a-z0-9_-]{8})!([a-z0-9_-]{22})$` (caseless)

`main` tries the file grammar first (line 229), then the folder grammar
(line 276); a link matching neither is skipped with a warning (line 328).
The captures are the exact substrings of the subject string
(`g_match_info_fetch` preserves case). -/

def parseFrag (klen : Nat) (cs : List Char) : Option (List Char × List Char) :=
  match takeLink 8 cs with
  | none => none
  | some (h, r) =>
    match litCI ['!'] r with
    | none => none
    | some r2 =>
      match takeLink klen r2 with
      | none => none
      | some (k, r3) => if r3 = [] then some (h, k) else none

def parseFragFile (cs : List Char) : Option (List Char × List Char) := parseFrag 43 cs

def parseFragFolder (cs : List Char) : Option (List Char × List Char) := parseFrag 22 cs

def parseLink (marker : List Char) (klen : Nat) (cs : List Char) :
    Option (List Char × List Char) :=
  match parseScheme cs with
  | none => none
  | some r1 =>
    match litCI [':', '/', '/'] r1 with
    | none => none
    | some r2 =>
      match parseHost r2 with
      | none => none
      | some r3 =>
        match litCI marker r3 with
        | none => none
        | some r4 => parseFrag klen r4

def parseFileLink (cs : List Char) : Option (List Char × List Char) :=
  parseLink ['/', '#', '!'] 43 cs

def parseFolderLink (cs : List Char) : Option (List Char × List Char) :=
  parseLink ['/', '#', 'f', '!'] 22 cs

/-- The typed reference produced by the link classification in `main`. -/
inductive Ref where
  | fileRef (handle key : String)
  | folderRef (handle key : String)
  | invalid
deriving DecidableEq

/-- Classification of one link argument, exactly as `main` does it:
file grammar first, then folder grammar, otherwise invalid. -/
def classify (s : String) : Ref :=
  match parseFileLink s.data with
  | some hk => Ref.fileRef (String.mk hk.1) (String.mk hk.2)
  | none =>
    match parseFolderLink s.data with
    | some hk => Ref.folderRef (String.mk hk.1) (String.mk hk.2)
    | none => Ref.invalid

/-- Assembles a file-shaped link string from its parts. -/
def mkFileLink (scheme host handle key : List Char) : String :=
  String.mk (scheme ++ ':' :: '/' :: '/' :: (host ++ '/' :: '#' :: '!' :: (handle ++ '!' :: key)))

/-- Assembles a folder-shaped link string from its parts (`m` is the
case-variable folder marker `F`). -/
def mkFolderLink (scheme host : List Char) (m : Char) (handle key : List Char) : String :=
  String.mk (scheme ++ ':' :: '/' :: '/' :: (host ++ '/' :: '#' :: m :: '!' :: (handle ++ '!' :: key)))

/-- The decomposition a successful link parse certifies. -/
def linkShape (marker : List Char) (klen : Nat) (cs h k : List Char) : Prop :=
  ∃ s sep hst mk, cs = s ++ sep ++ hst ++ mk ++ h ++ '!' :: k ∧
    schemeOkL s ∧ sep.map Char.toLower = [':', '/', '/'] ∧ hostOkL hst ∧
    mk.map Char.toLower = marker.map Char.toLower ∧
    h.length = 8 ∧ h.all isLinkChar = true ∧ k.length = klen ∧ k.all isLinkChar = true

/-! ### Case variants -/

/-- Holds when the second list is the first with some subset of its
characters upper-cased. -/
def upperVariantB : List Char → List Char → Bool
  | [], [] => true
  | c :: cs, c' :: cs' => (c' == c || c' == c.toUpper) && upperVariantB cs cs'
  | _, _ => false

/-- Two classification results agree up to letter case of the captures. -/
def refMatches : Ref → Ref → Prop
  | Ref.fileRef h k, Ref.fileRef h' k' =>
      h'.data.map Char.toLower = h.data.map Char.toLower ∧
      k'.data.map Char.toLower = k.data.map Char.toLower
  | Ref.folderRef h k, Ref.folderRef h' k' =>
      h'.data.map Char.toLower = h.data.map Char.toLower ∧
      k'.data.map Char.toLower = k.data.map Char.toLower
  | Ref.invalid, Ref.invalid => True
  | _, _ => False

/-! ### The retry loop (dl.c lines 80-109 and 234-274)

Both call sites run the same loop: `attempts = 0`, `sleep_amt = 2000000` µs;
while `attempts < 5`: if `attempts > 0`, announce, sleep `sleep_amt` and
double it; call the session fetch; on success stop with success; on failure
increment `attempts` and stop (give up) when the error matches
`(MEGA_ERROR, MEGA_ERROR_OTHER)`, otherwise loop.

The session's fetch outcome on the `i`-th call is an oracle `fetch i`.
An error carries whether it matches `(MEGA_ERROR, MEGA_ERROR_OTHER)`; per the
code comment ("only retry failed downloads, e.g. HTTP_ERROR; treat the rest
of errors as failure, do not retry") and the spec, the non-matching errors
are exactly the transient transport/HTTP-level failures. -/

inductive FetchResult where
  | ok
  | err (matchesOther : Bool)
deriving DecidableEq

/-- A transient (transport/HTTP-level) error: one the loop retries. -/
def FetchResult.transient : FetchResult → Bool
  | FetchResult.err false => true
  | _ => false

structure RetryOut where
  status : Bool
  attempts : Nat
  calls : Nat
  waits : List Nat
deriving DecidableEq

def retryAux (fetch : Nat → FetchResult) : Nat → Nat → Nat → RetryOut
  | 0, attempts, _ => ⟨false, attempts, 0, []⟩
  | fuel + 1, attempts, sleep =>
    let ws : List Nat := if 0 < attempts then [sleep] else []
    let sleep' : Nat := if 0 < attempts then sleep * 2 else sleep
    match fetch attempts with
    | FetchResult.ok => ⟨true, attempts, 1, ws⟩
    | FetchResult.err other =>
      if other then ⟨false, attempts + 1, 1, ws⟩
      else
        let r := retryAux fetch fuel (attempts + 1) sleep'
        ⟨r.status, r.attempts, r.calls + 1, ws ++ r.waits⟩

/-- The whole `while (attempts < 5)` loop: 5 units of fuel, `attempts = 0`,
`sleep_amt = 2000000` microseconds. -/
def retryLoop (fetch : Nat → FetchResult) : RetryOut :=
  retryAux fetch 5 0 2000000

/-! ### Filesystem model and the tree sync engine (dl.c lines 63-171) -/

/-- What `g_file_query_exists` / `g_file_query_file_type` can observe at a
local path. -/
inductive FType where
  | missing
  | file
  | directory
deriving DecidableEq

/-- The local filesystem plus an oracle saying whether
`g_file_make_directory` errors at a path (permissions etc.). -/
structure World where
  fs : List String → FType
  mkdirErr : List String → Bool

def setFS (w : World) (p : List String) (t : FType) : World :=
  { w with fs := fun q => if q = p then t else w.fs q }

/-- Observable operations: the per-attempt session fetches issued against a
local path (`mega_session_get`), directory creations
(`g_file_make_directory`), top-level downloads (`mega_session_dl`) and
folder opens (`mega_session_open_exp_folder`).  The last three of these
reach the network. -/
inductive Ev where
  | getFile (p : List String)
  | mkdir (p : List String)
  | dl (handle key : String) (stream : Bool)
  | openFolder (handle key : String)
deriving DecidableEq

/-- A remote node as the session hands it to the walk; a file node carries
the outcome script of its successive fetch attempts (attempts beyond the
script succeed). -/
inductive MegaNode where
  | file (name : String) (script : List FetchResult)
  | dir (name : String) (children : List MegaNode)

def MegaNode.name : MegaNode → String
  | MegaNode.file n _ => n
  | MegaNode.dir n _ => n

/-- The children `mega_session_get_node_chilren` returns: a file node has none. -/
def MegaNode.childList : MegaNode → List MegaNode
  | MegaNode.file _ _ => []
  | MegaNode.dir _ cs => cs

def scriptFetch (script : List FetchResult) : Nat → FetchResult :=
  fun i => script.getD i FetchResult.ok

/-- The file step `dl_sync_file` (lines 63-121): refuse an existing local target, else run
the retry loop; a successful run materializes the file. -/
def dl_sync_file (w : World) (p : List String) (script : List FetchResult) :
    Bool × World × List Ev :=
  if w.fs p ≠ FType.missing then (false, w, [])
  else
    let r := retryLoop (scriptFetch script)
    if r.status then (true, setFS w p FType.file, List.replicate r.calls (Ev.getFile p))
    else (false, w, List.replicate r.calls (Ev.getFile p))

mutual

/-- The dispatch on `child->type` in the children loop of `dl_sync_dir`
(lines 157-166). -/
def dl_sync_node (w : World) (n : MegaNode) (p : List String) : Bool × World × List Ev :=
  match n with
  | MegaNode.file _ script => dl_sync_file w p script
  | MegaNode.dir _ cs => dl_sync_dir_core w cs p

/-- The directory step `dl_sync_dir` (lines 123-171) on a node with children `cs`: create the
local directory if missing (failing the step if creation errors), fail if a
non-directory sits there, then walk the children. -/
def dl_sync_dir_core (w : World) (cs : List MegaNode) (p : List String) :
    Bool × World × List Ev :=
  if w.fs p = FType.missing then
    if w.mkdirErr p then (false, w, [Ev.mkdir p])
    else
      let r := dl_sync_children (setFS w p FType.directory) cs p
      (r.1, r.2.1, Ev.mkdir p :: r.2.2)
  else if w.fs p ≠ FType.directory then (false, w, [])
  else dl_sync_children w cs p

/-- The children loop (lines 148-167): visit every child in session order,
AND the results, thread the filesystem. -/
def dl_sync_children (w : World) (cs : List MegaNode) (p : List String) :
    Bool × World × List Ev :=
  match cs with
  | [] => (true, w, [])
  | c :: rest =>
    let r1 := dl_sync_node w c (p ++ [c.name])
    let r2 := dl_sync_children r1.2.1 rest p
    (r1.1 && r2.1, r2.2.1, r1.2.2 ++ r2.2.2)

end

/-- Path order: `pathLe p q` says `q` lies in the subtree rooted at `p`. -/
def pathLe (p q : List String) : Prop := ∃ t, q = p ++ t

/-! ### Aggregation over the children of a directory -/

/-- The per-child step results of the walk, in session order. -/
def childResults (w : World) (cs : List MegaNode) (p : List String) : List Bool :=
  match cs with
  | [] => []
  | c :: rest =>
    let r1 := dl_sync_node w c (p ++ [c.name])
    r1.1 :: childResults r1.2.1 rest p

/-! ### The progress reporter (dl.c lines 39-59)

`cur_file` is a single process-wide slot; the callback handles one status
event per call: raw data is written through in stream mode, a FILEINFO event
overwrites the slot, a PROGRESS event renders using the current slot. -/

inductive StatusData where
  | rawData (buf : List Nat)
  | fileinfo (name : String)
  | progressEv (done total : Nat)

structure RepState where
  curFile : Option String
  streamOut : List (List Nat)
  renders : List (Option String)
deriving DecidableEq

/-- One invocation of `status_callback`. -/
def status_callback (stream noprogress : Bool) (st : RepState) (d : StatusData) :
    RepState :=
  match d with
  | StatusData.rawData buf =>
    if stream then { st with streamOut := st.streamOut ++ [buf] } else st
  | StatusData.fileinfo name => { st with curFile := some name }
  | StatusData.progressEv _ _ =>
    if noprogress then st else { st with renders := st.renders ++ [st.curFile] }

/-- The callback over a whole sequence of status events. -/
def processEvents (stream noprogress : Bool) (st : RepState) (evs : List StatusData) :
    RepState :=
  evs.foldl (status_callback stream noprogress) st

/-- Modelled from the spec: the name the spec says the final success message
must carry — the name of the most recent `FileInfo` event of the transfer. -/
def lastFileInfoName (evs : List StatusData) : Option String :=
  evs.reverse.findSome? fun d =>
    match d with
    | StatusData.fileinfo name => some name
    | _ => none

/-- The name `main` prints in its success messages (lines 267 and 269): the
current content of the `cur_file` slot. -/
def successMessageName (st : RepState) : Option String := st.curFile

/-! ### main (dl.c lines 173-333)

The session behaviour is an oracle: `dlScript i` gives the outcomes of the
successive `mega_session_dl` attempts for the `i`-th argument, `openOk i`
whether `mega_session_open_exp_folder` succeeds, `lsRoot i` what
`mega_session_ls(s, "/", FALSE)` returns after a successful open.  Stream
mode (`opt_path = "-"`) is the boolean `stream`; the local destination
`opt_path` is the path `dest`.  `mega_session_dl`'s own filesystem effect is
internal to the session library and not modelled. -/

structure Sess where
  dlScript : Nat → Nat → FetchResult
  openOk : Nat → Bool
  lsRoot : Nat → List MegaNode

structure MainOut where
  exit : Nat
  w : World
  evs : List Ev

/-- The `for (i = 1; i < ac; i++)` loop over the link arguments, carrying
the mutable `status`.  A file link runs the retry loop and then sets
`status` to 0 on success (line 271) or leaves it 1 after failed attempts
(line 251); a folder link in stream mode returns 1 immediately (lines
278-283); otherwise the folder is opened, the single root node demanded,
the destination checked to be a directory, and the subtree synced; an
unclassifiable link only warns. -/
def procLinks (sess : Sess) (stream : Bool) (dest : List String) :
    World → Nat → Nat → List String → MainOut
  | w, status, _, [] => ⟨status, w, []⟩
  | w, status, i, link :: rest =>
    match classify link with
    | Ref.fileRef h k =>
      let r := retryLoop (sess.dlScript i)
      let status' : Nat := if r.status then 0 else 1
      let out := procLinks sess stream dest w status' (i + 1) rest
      ⟨out.exit, out.w, List.replicate r.calls (Ev.dl h k stream) ++ out.evs⟩
    | Ref.folderRef h k =>
      if stream then ⟨1, w, []⟩
      else if sess.openOk i = false then
        let out := procLinks sess stream dest w 1 (i + 1) rest
        ⟨out.exit, out.w, Ev.openFolder h k :: out.evs⟩
      else
        match sess.lsRoot i with
        | [root] =>
          if w.fs dest = FType.directory then
            let r := dl_sync_dir_core w root.childList dest
            let status' : Nat := if r.1 then status else 1
            let out := procLinks sess stream dest r.2.1 status' (i + 1) rest
            ⟨out.exit, out.w, Ev.openFolder h k :: (r.2.2 ++ out.evs)⟩
          else
            let out := procLinks sess stream dest w 1 (i + 1) rest
            ⟨out.exit, out.w, Ev.openFolder h k :: out.evs⟩
        | _ =>
          let out := procLinks sess stream dest w 1 (i + 1) rest
          ⟨out.exit, out.w, Ev.openFolder h k :: out.evs⟩
    | Ref.invalid => procLinks sess stream dest w status (i + 1) rest

/-- The entry point `main`: usage checks (no links: line 192; stream with several links:
line 199), then the link loop; the returned `status` is the process exit
status (line 333). -/
def runMain (w : World) (sess : Sess) (stream : Bool) (dest : List String)
    (links : List String) : MainOut :=
  if links.length < 1 then ⟨1, w, []⟩
  else if stream ∧ links.length ≠ 1 then ⟨1, w, []⟩
  else procLinks sess stream dest w 0 0 links

/-! ### Character facts used to reason about caseless matching -/

theorem char_toNat_ofNat_lt {n : Nat} (h : n < 55296) : (Char.ofNat n).toNat = n := by
  have hv : n.isValidChar := Or.inl h
  simp only [Char.ofNat, hv, dite_true, Char.ofNatAux, Char.toNat, UInt32.toNat]
  simp [BitVec.toNat_ofNatLt]

theorem char_toNat_inj {c d : Char} (h : c.toNat = d.toNat) : c = d := by
  apply Char.eq_of_val_eq
  apply UInt32.eq_of_toBitVec_eq
  apply BitVec.eq_of_toNat_eq
  exact h

theorem toLower_toNat (c : Char) :
    c.toLower.toNat = if 65 ≤ c.toNat ∧ c.toNat ≤ 90 then c.toNat + 32 else c.toNat := by
  unfold Char.toLower
  by_cases h : 65 ≤ c.toNat ∧ c.toNat ≤ 90
  · rw [if_pos h, if_pos h]
    exact char_toNat_ofNat_lt (by omega)
  · rw [if_neg h, if_neg h]

theorem toUpper_toNat (c : Char) :
    c.toUpper.toNat = if 97 ≤ c.toNat ∧ c.toNat ≤ 122 then c.toNat - 32 else c.toNat := by
  unfold Char.toUpper
  by_cases h : 97 ≤ c.toNat ∧ c.toNat ≤ 122
  · rw [if_pos h, if_pos h]
    exact char_toNat_ofNat_lt (by omega)
  · rw [if_neg h, if_neg h]

theorem toLower_toUpper (c : Char) : c.toUpper.toLower = c.toLower := by
  apply char_toNat_inj
  simp only [toLower_toNat, toUpper_toNat]
  split_ifs <;> omega

theorem toLower_fix {c x : Char} (h : c.toLower = x)
    (hx : ¬(97 ≤ x.toNat ∧ x.toNat ≤ 122)) : c = x := by
  apply char_toNat_inj
  have := toLower_toNat c
  rw [h] at this
  by_cases h65 : 65 ≤ c.toNat ∧ c.toNat ≤ 90
  · rw [if_pos h65] at this
    omega
  · rw [if_neg h65] at this
    omega

theorem isLinkChar_toLower_ne {c x : Char} (h : isLinkChar c = true)
    (hx : x.toNat < 45 ∨ x.toNat = 46 ∨ x.toNat = 47 ∨ (58 ≤ x.toNat ∧ x.toNat ≤ 94) ∨
      x.toNat = 96 ∨ 123 ≤ x.toNat) : c.toLower ≠ x := by
  intro he
  simp only [isLinkChar, Bool.or_eq_true, Bool.and_eq_true, decide_eq_true_eq,
    beq_iff_eq] at h
  rw [he] at h
  omega

theorem isLinkChar_lower (c : Char) : isLinkChar c = isLinkChar c.toLower := by
  simp only [isLinkChar]
  have : c.toLower.toLower.toNat = c.toLower.toNat := by
    rw [toLower_toNat c.toLower, toLower_toNat c]
    split_ifs <;> omega
  rw [this]

theorem litCI_of : ∀ (p q : List Char) (r : List Char),
    q.map Char.toLower = p.map Char.toLower → litCI p (q ++ r) = some r
  | [], [], _, _ => rfl
  | [], _ :: _, _, h => by simp at h
  | _ :: _, [], _, h => by simp at h
  | p :: ps, c :: cs, r, h => by
    simp only [List.map_cons, List.cons.injEq] at h
    simp only [List.cons_append, litCI, h.1, if_true, if_pos h.1]
    exact litCI_of ps cs r h.2

theorem litCI_sound : ∀ (p cs r : List Char), litCI p cs = some r →
    ∃ q, cs = q ++ r ∧ q.map Char.toLower = p.map Char.toLower
  | [], cs, r, h => by
    simp only [litCI, Option.some.injEq] at h
    exact ⟨[], by simp [h]⟩
  | _ :: _, [], _, h => by simp [litCI] at h
  | p :: ps, c :: cs, r, h => by
    simp only [litCI] at h
    by_cases hc : c.toLower = p.toLower
    · rw [if_pos hc] at h
      obtain ⟨q, hq, hm⟩ := litCI_sound ps cs r h
      exact ⟨c :: q, by simp [hq], by simp [hm, hc]⟩
    · rw [if_neg hc] at h
      exact absurd h (by simp)

theorem takeLink_of : ∀ (h r : List Char), h.all isLinkChar →
    takeLink h.length (h ++ r) = some (h, r)
  | [], r, _ => rfl
  | c :: cs, r, hall => by
    simp only [List.all_cons, Bool.and_eq_true] at hall
    simp [takeLink, hall.1, takeLink_of cs r hall.2]

theorem takeLink_sound : ∀ (n : Nat) (cs h r : List Char),
    takeLink n cs = some (h, r) → cs = h ++ r ∧ h.length = n ∧ h.all isLinkChar
  | 0, cs, h, r, he => by
    simp only [takeLink, Option.some.injEq, Prod.mk.injEq] at he
    simp [← he.1, ← he.2]
  | _ + 1, [], _, _, he => Option.noConfusion he
  | n + 1, c :: cs, h, r, he => by
    simp only [takeLink] at he
    by_cases hc : isLinkChar c
    · rw [if_pos hc] at he
      cases htk : takeLink n cs with
      | none => rw [htk] at he; simp at he
      | some pr =>
        rw [htk] at he
        simp only [Option.map_some', Option.some.injEq, Prod.mk.injEq] at he
        obtain ⟨h1, h2, h3⟩ := takeLink_sound n cs pr.1 pr.2 (by rw [htk])
        refine ⟨?_, ?_, ?_⟩
        · simp [← he.1, ← he.2, h1]
        · simp [← he.1, h2]
        · simp [← he.1, List.all_cons, hc, h3]
    · rw [if_neg hc] at he
      exact absurd he (by simp)

theorem takeLink_none_short : ∀ (n : Nat) (q : List Char), q.all isLinkChar →
    q.length < n → takeLink n q = none
  | 0, _, _, hl => by omega
  | _ + 1, [], _, _ => rfl
  | n + 1, c :: cs, hall, hl => by
    simp only [List.all_cons, Bool.and_eq_true] at hall
    simp only [takeLink, hall.1, if_true]
    rw [takeLink_none_short n cs hall.2 (by simpa using hl)]
    rfl

theorem takeLink_none_stop : ∀ (n : Nat) (q : List Char) (d : Char) (r : List Char),
    q.all isLinkChar → q.length < n → isLinkChar d = false →
    takeLink n (q ++ d :: r) = none
  | 0, _, _, _, _, hl, _ => by omega
  | _ + 1, [], d, r, _, _, hd => by simp [takeLink, hd]
  | n + 1, c :: cs, d, r, hall, hl, hd => by
    simp only [List.all_cons, Bool.and_eq_true] at hall
    simp [takeLink, hall.1, takeLink_none_stop n cs d r hall.2 (by simpa using hl) hd]

theorem takeLink_none_within : ∀ (n : Nat) (q r : List Char), q.length = n →
    ¬(q.all isLinkChar = true) → takeLink n (q ++ r) = none
  | 0, q, _, hl, hbad => by
    have : q = [] := List.length_eq_zero.mp hl
    subst this
    simp at hbad
  | _ + 1, [], _, hl, _ => by simp at hl
  | n + 1, c :: cs, r, hl, hbad => by
    by_cases hc : isLinkChar c
    · simp [takeLink, hc, takeLink_none_within n cs r (by simpa using hl)
        (by simp only [List.all_cons, hc, Bool.true_and] at hbad; exact hbad)]
    · simp [takeLink, hc]

theorem parseScheme_of {s : List Char} (hs : schemeOkL s) {c : Char}
    (hc : c.toLower ≠ 's') (r : List Char) :
    parseScheme (s ++ c :: r) = some (c :: r) := by
  cases hs with
  | inl h =>
    have h1 := litCI_of ['h', 't', 't', 'p'] s (c :: r) (by rw [h]; rfl)
    simp [parseScheme, h1, hc]
  | inr h =>
    obtain ⟨s4, s1, rfl, hm4, hm1⟩ := List.map_eq_append_iff.mp
      (h.trans (show (['h', 't', 't', 'p', 's'] : List Char) =
        ['h', 't', 't', 'p'] ++ ['s'] from rfl))
    obtain ⟨e, s0, rfl, he, hs0⟩ := List.map_eq_cons_iff.mp hm1
    have hs0' : s0 = [] := by simpa using hs0
    subst hs0'
    have h1 := litCI_of ['h', 't', 't', 'p'] s4 (e :: c :: r) (by rw [hm4]; rfl)
    have : (s4 ++ [e]) ++ c :: r = s4 ++ (e :: c :: r) := by simp
    rw [this]
    simp [parseScheme, h1, he]

theorem parseScheme_sound {cs r : List Char} (h : parseScheme cs = some r) :
    ∃ q, cs = q ++ r ∧ schemeOkL q := by
  unfold parseScheme at h
  cases hl : litCI ['h', 't', 't', 'p'] cs with
  | none => rw [hl] at h; exact absurd h (by simp)
  | some r0 =>
    rw [hl] at h
    obtain ⟨q0, hq0, hm0⟩ := litCI_sound _ _ _ hl
    cases r0 with
    | nil =>
      replace h : (some ([] : List Char)) = some r := h
      simp only [Option.some.injEq] at h
      exact ⟨q0, by simp [hq0, ← h], Or.inl (by simpa using hm0)⟩
    | cons c r' =>
      replace h : (if c.toLower = 's' then some r' else some (c :: r')) = some r := h
      by_cases hc : c.toLower = 's'
      · rw [if_pos hc] at h
        simp only [Option.some.injEq] at h
        subst h
        refine ⟨q0 ++ [c], by simp [hq0], Or.inr ?_⟩
        simp only [List.map_append, List.map_cons, List.map_nil, hc]
        rw [show List.map Char.toLower q0 = ['h', 't', 't', 'p'] from by simpa using hm0]
        rfl
      · rw [if_neg hc] at h
        simp only [Option.some.injEq] at h
        subst h
        exact ⟨q0, hq0, Or.inl (by simpa using hm0)⟩

theorem parseHost_of {h : List Char} (hh : hostOkL h) (r : List Char) :
    parseHost (h ++ r) = some r := by
  cases hh with
  | inl hm =>
    obtain ⟨m4, t3, rfl, hm4, hm3⟩ := List.map_eq_append_iff.mp
      (hm.trans (show (['m', 'e', 'g', 'a', '.', 'n', 'z'] : List Char) =
        ['m', 'e', 'g', 'a'] ++ ['.', 'n', 'z'] from rfl))
    obtain ⟨d1, t2, rfl, hd1, hm2⟩ := List.map_eq_cons_iff.mp hm3
    obtain ⟨d2, t1, rfl, hd2, hm1'⟩ := List.map_eq_cons_iff.mp hm2
    have h1 := litCI_of ['m', 'e', 'g', 'a'] m4 (d1 :: d2 :: (t1 ++ r)) (by rw [hm4]; rfl)
    have h2 : litCI ['.', 'c', 'o', '.', 'n', 'z'] (d1 :: d2 :: (t1 ++ r)) = none := by
      simp only [litCI]
      rw [if_pos (show d1.toLower = Char.toLower '.' by rw [hd1]; decide),
        if_neg (show ¬d2.toLower = Char.toLower 'c' by rw [hd2]; decide)]
    have h3 : litCI ['.', 'n', 'z'] (d1 :: d2 :: (t1 ++ r)) = some r := by
      have := litCI_of ['.', 'n', 'z'] (d1 :: d2 :: t1) r (by simp [hd1, hd2, hm1'])
      simpa using this
    show parseHost ((m4 ++ d1 :: d2 :: t1) ++ r) = some r
    have hshape : (m4 ++ d1 :: d2 :: t1) ++ r = m4 ++ (d1 :: d2 :: (t1 ++ r)) := by simp
    rw [hshape]
    simp [parseHost, h1, h2, h3]
  | inr hm =>
    obtain ⟨m4, t6, rfl, hm4, hm6⟩ := List.map_eq_append_iff.mp
      (hm.trans (show (['m', 'e', 'g', 'a', '.', 'c', 'o', '.', 'n', 'z'] : List Char) =
        ['m', 'e', 'g', 'a'] ++ ['.', 'c', 'o', '.', 'n', 'z'] from rfl))
    have h1 := litCI_of ['m', 'e', 'g', 'a'] m4 (t6 ++ r) (by rw [hm4]; rfl)
    have h2 := litCI_of ['.', 'c', 'o', '.', 'n', 'z'] t6 r (by rw [hm6]; rfl)
    show parseHost ((m4 ++ t6) ++ r) = some r
    rw [List.append_assoc]
    simp [parseHost, h1, h2]

theorem parseHost_sound {cs r : List Char} (h : parseHost cs = some r) :
    ∃ q, cs = q ++ r ∧ hostOkL q := by
  unfold parseHost at h
  cases hl : litCI ['m', 'e', 'g', 'a'] cs with
  | none => rw [hl] at h; exact absurd h (by simp)
  | some r0 =>
    rw [hl] at h
    obtain ⟨q0, hq0, hm0⟩ := litCI_sound _ _ _ hl
    replace h : (match litCI ['.', 'c', 'o', '.', 'n', 'z'] r0 with
      | some r2 => some r2
      | none => litCI ['.', 'n', 'z'] r0) = some r := h
    cases hco : litCI ['.', 'c', 'o', '.', 'n', 'z'] r0 with
    | some r2 =>
      rw [hco] at h
      simp only [Option.some.injEq] at h
      subst h
      obtain ⟨q1, hq1, hm1⟩ := litCI_sound _ _ _ hco
      refine ⟨q0 ++ q1, by simp [hq0, hq1], Or.inr ?_⟩
      simp only [List.map_append]
      rw [show List.map Char.toLower q0 = ['m', 'e', 'g', 'a'] from by simpa using hm0,
        show List.map Char.toLower q1 = ['.', 'c', 'o', '.', 'n', 'z'] from by simpa using hm1]
      rfl
    | none =>
      rw [hco] at h
      replace h : litCI ['.', 'n', 'z'] r0 = some r := h
      obtain ⟨q1, hq1, hm1⟩ := litCI_sound _ _ _ h
      refine ⟨q0 ++ q1, by simp [hq0, hq1], Or.inl ?_⟩
      simp only [List.map_append]
      rw [show List.map Char.toLower q0 = ['m', 'e', 'g', 'a'] from by simpa using hm0,
        show List.map Char.toLower q1 = ['.', 'n', 'z'] from by simpa using hm1]
      rfl

theorem parseFileLink_shape {s h : List Char} (hs : schemeOkL s) (hh : hostOkL h)
    (frag : List Char) :
    parseFileLink (s ++ ':' :: '/' :: '/' :: (h ++ '/' :: '#' :: '!' :: frag)) =
      parseFragFile frag := by
  have h1 := parseScheme_of hs (show Char.toLower ':' ≠ 's' by decide)
    ('/' :: '/' :: (h ++ '/' :: '#' :: '!' :: frag))
  have h2 : litCI [':', '/', '/'] (':' :: '/' :: '/' :: (h ++ '/' :: '#' :: '!' :: frag)) =
      some (h ++ '/' :: '#' :: '!' :: frag) := rfl
  have h3 := parseHost_of hh ('/' :: '#' :: '!' :: frag)
  have h4 : litCI ['/', '#', '!'] ('/' :: '#' :: '!' :: frag) = some frag := rfl
  simp [parseFileLink, parseLink, parseFragFile, h1, h2, h3, h4]

theorem parseFolderLink_shape {s h : List Char} (hs : schemeOkL s) (hh : hostOkL h)
    {m : Char} (hm : m.toLower = 'f') (frag : List Char) :
    parseFolderLink (s ++ ':' :: '/' :: '/' :: (h ++ '/' :: '#' :: m :: '!' :: frag)) =
      parseFragFolder frag := by
  have h1 := parseScheme_of hs (show Char.toLower ':' ≠ 's' by decide)
    ('/' :: '/' :: (h ++ '/' :: '#' :: m :: '!' :: frag))
  have h2 : litCI [':', '/', '/'] (':' :: '/' :: '/' :: (h ++ '/' :: '#' :: m :: '!' :: frag)) =
      some (h ++ '/' :: '#' :: m :: '!' :: frag) := rfl
  have h3 := parseHost_of hh ('/' :: '#' :: m :: '!' :: frag)
  have h4 : litCI ['/', '#', 'f', '!'] ('/' :: '#' :: m :: '!' :: frag) = some frag := by
    simp [litCI, hm]
  simp [parseFolderLink, parseLink, parseFragFolder, h1, h2, h3, h4]

theorem parseFolderLink_file_shape {s h : List Char} (hs : schemeOkL s) (hh : hostOkL h)
    (frag : List Char) :
    parseFolderLink (s ++ ':' :: '/' :: '/' :: (h ++ '/' :: '#' :: '!' :: frag)) = none := by
  have h1 := parseScheme_of hs (show Char.toLower ':' ≠ 's' by decide)
    ('/' :: '/' :: (h ++ '/' :: '#' :: '!' :: frag))
  have h2 : litCI [':', '/', '/'] (':' :: '/' :: '/' :: (h ++ '/' :: '#' :: '!' :: frag)) =
      some (h ++ '/' :: '#' :: '!' :: frag) := rfl
  have h3 := parseHost_of hh ('/' :: '#' :: '!' :: frag)
  have h4 : litCI ['/', '#', 'f', '!'] ('/' :: '#' :: '!' :: frag) = none := by
    simp [litCI]
  simp [parseFolderLink, parseLink, parseFragFolder, h1, h2, h3, h4]

theorem parseFileLink_folder_shape {s h : List Char} (hs : schemeOkL s) (hh : hostOkL h)
    {m : Char} (hm : m.toLower = 'f') (frag : List Char) :
    parseFileLink (s ++ ':' :: '/' :: '/' :: (h ++ '/' :: '#' :: m :: '!' :: frag)) = none := by
  have h1 := parseScheme_of hs (show Char.toLower ':' ≠ 's' by decide)
    ('/' :: '/' :: (h ++ '/' :: '#' :: m :: '!' :: frag))
  have h2 : litCI [':', '/', '/'] (':' :: '/' :: '/' :: (h ++ '/' :: '#' :: m :: '!' :: frag)) =
      some (h ++ '/' :: '#' :: m :: '!' :: frag) := rfl
  have h3 := parseHost_of hh ('/' :: '#' :: m :: '!' :: frag)
  have h4 : litCI ['/', '#', '!'] ('/' :: '#' :: m :: '!' :: frag) = none := by
    simp [litCI, hm]
  simp [parseFileLink, parseLink, parseFragFile, h1, h2, h3, h4]

/-! ### Fragment-level facts: `<8-char-handle>!<klen-char-key>` -/

theorem parseFrag_pos {klen : Nat} {h k : List Char} (hl : h.length = 8)
    (ha : h.all isLinkChar = true) (kl : k.length = klen) (ka : k.all isLinkChar = true) :
    parseFrag klen (h ++ '!' :: k) = some (h, k) := by
  have h1 : takeLink 8 (h ++ '!' :: k) = some (h, '!' :: k) := by
    rw [← hl]; exact takeLink_of h ('!' :: k) ha
  have h2 : litCI ['!'] ('!' :: k) = some k := rfl
  have h3 : takeLink klen k = some (k, []) := by
    rw [← kl, ← List.append_nil k]
    have := takeLink_of k [] ka
    simpa using this
  simp [parseFrag, h1, h2, h3]

theorem parseFrag_badlen {klen : Nat} {h k : List Char}
    (ha : h.all isLinkChar = true) (ka : k.all isLinkChar = true)
    (hbad : h.length ≠ 8 ∨ k.length ≠ klen) :
    parseFrag klen (h ++ '!' :: k) = none := by
  rcases Nat.lt_trichotomy h.length 8 with hlt | heq | hgt
  · have h1 : takeLink 8 (h ++ '!' :: k) = none :=
      takeLink_none_stop 8 h '!' k ha hlt (by decide)
    simp [parseFrag, h1]
  · have h1 : takeLink 8 (h ++ '!' :: k) = some (h, '!' :: k) := by
      rw [← heq]; exact takeLink_of h ('!' :: k) ha
    have h2 : litCI ['!'] ('!' :: k) = some k := rfl
    have hkl : k.length ≠ klen := by
      cases hbad with
      | inl hx => exact absurd heq hx
      | inr hx => exact hx
    rcases Nat.lt_trichotomy k.length klen with klt | keq | kgt
    · have h3 : takeLink klen k = none := by
        have := takeLink_none_short klen k ka klt
        exact this
      simp [parseFrag, h1, h2, h3]
    · exact absurd keq hkl
    · have hsplit : k = k.take klen ++ k.drop klen := (List.take_append_drop klen k).symm
      have h3 : takeLink klen k = some (k.take klen, k.drop klen) := by
        have hta : (k.take klen).all isLinkChar = true := by
          rw [List.all_eq_true] at ka ⊢
          exact fun x hx => ka x (List.take_subset klen k hx)
        have htl : (k.take klen).length = klen := by
          rw [List.length_take]
          omega
        have base := takeLink_of (k.take klen) (k.drop klen) hta
        rw [htl] at base
        conv in takeLink klen k => rw [hsplit]
        exact base
      have hne : k.drop klen ≠ [] := by
        intro hnil
        have := List.length_drop klen k
        rw [hnil] at this
        simp at this
        omega
      simp [parseFrag, h1, h2, h3, hne]
  · have hsplit : h = h.take 8 ++ h.drop 8 := (List.take_append_drop 8 h).symm
    have hta : (h.take 8).all isLinkChar = true := by
      rw [List.all_eq_true] at ha ⊢
      exact fun x hx => ha x (List.take_subset 8 h hx)
    have htl : (h.take 8).length = 8 := by
      rw [List.length_take]
      omega
    cases hd : h.drop 8 with
    | nil =>
      exfalso
      have := List.length_drop 8 h
      rw [hd] at this
      simp at this
      omega
    | cons d rest =>
      have h1 : takeLink 8 (h ++ '!' :: k) = some (h.take 8, d :: (rest ++ '!' :: k)) := by
        have base := takeLink_of (h.take 8) (d :: (rest ++ '!' :: k)) hta
        rw [htl] at base
        have hform : h ++ '!' :: k = h.take 8 ++ (d :: (rest ++ '!' :: k)) := by
          conv_lhs => rw [hsplit, hd]
          simp
        rw [hform]
        exact base
      have hdmem : d ∈ h := by
        rw [hsplit, hd]
        exact List.mem_append_right _ (List.mem_cons_self d rest)
      have hdlink : isLinkChar d = true := by
        rw [List.all_eq_true] at ha
        exact ha d hdmem
      have h2 : litCI ['!'] (d :: (rest ++ '!' :: k)) = none := by
        have hne := isLinkChar_toLower_ne hdlink
          (Or.inl (by decide : ('!' : Char).toNat < 45))
        simp [litCI, hne]
      simp [parseFrag, h1, h2]

theorem parseFrag_badalpha {klen : Nat} {h k : List Char} (hl : h.length = 8)
    (kl : k.length = klen)
    (hbad : ¬(h.all isLinkChar = true ∧ k.all isLinkChar = true)) :
    parseFrag klen (h ++ '!' :: k) = none := by
  by_cases hha : h.all isLinkChar = true
  · have hka : ¬(k.all isLinkChar = true) := fun hk => hbad ⟨hha, hk⟩
    have h1 : takeLink 8 (h ++ '!' :: k) = some (h, '!' :: k) := by
      rw [← hl]; exact takeLink_of h ('!' :: k) hha
    have h2 : litCI ['!'] ('!' :: k) = some k := rfl
    have h3 : takeLink klen k = none := by
      rw [← kl, ← List.append_nil k]
      have := takeLink_none_within k.length k [] rfl hka
      simpa using this
    simp [parseFrag, h1, h2, h3]
  · have h1 : takeLink 8 (h ++ '!' :: k) = none :=
      takeLink_none_within 8 h ('!' :: k) hl hha
    simp [parseFrag, h1]

theorem parseFrag_sound {klen : Nat} {cs h k : List Char}
    (he : parseFrag klen cs = some (h, k)) :
    cs = h ++ '!' :: k ∧ h.length = 8 ∧ h.all isLinkChar = true ∧
      k.length = klen ∧ k.all isLinkChar = true := by
  unfold parseFrag at he
  cases h1 : takeLink 8 cs with
  | none => rw [h1] at he; exact absurd he (by simp)
  | some hr =>
    rw [h1] at he
    obtain ⟨hcs, hhl, hha⟩ := takeLink_sound 8 cs hr.1 hr.2 (by rw [h1])
    replace he : (match litCI ['!'] hr.2 with
      | none => none
      | some r2 =>
        match takeLink klen r2 with
        | none => none
        | some (k, r3) => if r3 = [] then some (hr.1, k) else none) = some (h, k) := he
    cases h2 : litCI ['!'] hr.2 with
    | none => rw [h2] at he; exact absurd he (by simp)
    | some r2 =>
      rw [h2] at he
      obtain ⟨q, hq, hqm⟩ := litCI_sound _ _ _ h2
      obtain ⟨b, b0, rfl, hb, hb0⟩ := List.map_eq_cons_iff.mp (by simpa using hqm)
      have hb0' : b0 = [] := by simpa using hb0
      subst hb0'
      have hbang : b = '!' := toLower_fix hb (by decide)
      subst hbang
      replace he : (match takeLink klen r2 with
        | none => none
        | some (k, r3) => if r3 = [] then some (hr.1, k) else none) = some (h, k) := he
      cases h3 : takeLink klen r2 with
      | none => rw [h3] at he; exact absurd he (by simp)
      | some kr =>
        rw [h3] at he
        obtain ⟨hr2, hkl, hka⟩ := takeLink_sound klen r2 kr.1 kr.2 (by rw [h3])
        replace he : (if kr.2 = [] then some (hr.1, kr.1) else none) = some (h, k) := he
        by_cases hnil : kr.2 = []
        · rw [if_pos hnil] at he
          simp only [Option.some.injEq, Prod.mk.injEq] at he
          refine ⟨?_, ?_, ?_, ?_, ?_⟩
          · rw [hcs, hq, hr2, hnil, ← he.1, ← he.2]
            simp
          · rw [← he.1]; exact hhl
          · rw [← he.1]; exact hha
          · rw [← he.2]; exact hkl
          · rw [← he.2]; exact hka
        · rw [if_neg hnil] at he
          exact absurd he (by simp)

/-! ### Full-link characterization -/

/-- After a non-matching slash-free host, the residue left by `parseHost`
cannot begin with `/`, so both markers fail. -/
theorem afterHost_bad {host : List Char} (hno : ¬hostOkL host) (hslash : '/' ∉ host)
    {T r : List Char} (hp : parseHost (host ++ '/' :: T) = some r) :
    ∃ c t, r = c :: t ∧ c.toLower ≠ '/' := by
  obtain ⟨P, heq, hPok⟩ := parseHost_sound hp
  rcases List.append_eq_append_iff.mp heq with ⟨a, ha, hb⟩ | ⟨a, ha, hb⟩
  · cases a with
    | nil =>
      exfalso
      apply hno
      rw [show host = P by simpa using ha.symm]
      exact hPok
    | cons x xs =>
      exfalso
      injection hb with hb1 hb2
      have hmem : ('/' : Char) ∈ P := by
        rw [ha, ← hb1]
        exact List.mem_append_right _ (List.mem_cons_self _ _)
      have hmem2 : Char.toLower '/' ∈ P.map Char.toLower :=
        List.mem_map_of_mem Char.toLower hmem
      cases hPok with
      | inl hcase =>
        rw [hcase] at hmem2
        exact absurd hmem2 (by decide)
      | inr hcase =>
        rw [hcase] at hmem2
        exact absurd hmem2 (by decide)
  · cases a with
    | nil =>
      exfalso
      apply hno
      rw [show host = P by simpa using ha]
      exact hPok
    | cons c cc =>
      refine ⟨c, cc ++ '/' :: T, by rw [hb]; simp, ?_⟩
      intro hlowc
      have hcmem : c ∈ host := by
        rw [ha]
        exact List.mem_append_right _ (List.mem_cons_self c cc)
      have : c = '/' := toLower_fix hlowc (by decide)
      rw [this] at hcmem
      exact hslash hcmem

/-- Any marker of the two regexes starts with `/`; with a bad host the
whole link parse fails. -/
theorem parseLink_badhost {s host : List Char} (hs : schemeOkL s) (hno : ¬hostOkL host)
    (hslash : '/' ∉ host) {marker : List Char} {mtail : List Char}
    (hmk : marker = '/' :: mtail) (klen : Nat) (T : List Char) :
    parseLink marker klen (s ++ ':' :: '/' :: '/' :: (host ++ '/' :: T)) = none := by
  have h1 := parseScheme_of hs (show Char.toLower ':' ≠ 's' by decide)
    ('/' :: '/' :: (host ++ '/' :: T))
  have h2 : litCI [':', '/', '/'] (':' :: '/' :: '/' :: (host ++ '/' :: T)) =
      some (host ++ '/' :: T) := rfl
  cases hph : parseHost (host ++ '/' :: T) with
  | none => simp [parseLink, h1, h2, hph]
  | some r =>
    obtain ⟨c, t, rfl, hne⟩ := afterHost_bad hno hslash hph
    have h4 : litCI marker (c :: t) = none := by
      rw [hmk]
      simp [litCI, hne]
    simp [parseLink, h1, h2, hph, h4]

theorem parseLink_sound {marker : List Char} {klen : Nat} {cs h k : List Char}
    (he : parseLink marker klen cs = some (h, k)) : linkShape marker klen cs h k := by
  unfold parseLink at he
  cases h1 : parseScheme cs with
  | none => rw [h1] at he; exact absurd he (by simp)
  | some r1 =>
    rw [h1] at he
    obtain ⟨s, hcs, hsok⟩ := parseScheme_sound h1
    replace he : (match litCI [':', '/', '/'] r1 with
      | none => none
      | some r2 =>
        match parseHost r2 with
        | none => none
        | some r3 =>
          match litCI marker r3 with
          | none => none
          | some r4 => parseFrag klen r4) = some (h, k) := he
    cases h2 : litCI [':', '/', '/'] r1 with
    | none => rw [h2] at he; exact absurd he (by simp)
    | some r2 =>
      rw [h2] at he
      obtain ⟨sep, hr1, hsepm⟩ := litCI_sound _ _ _ h2
      replace he : (match parseHost r2 with
        | none => none
        | some r3 =>
          match litCI marker r3 with
          | none => none
          | some r4 => parseFrag klen r4) = some (h, k) := he
      cases h3 : parseHost r2 with
      | none => rw [h3] at he; exact absurd he (by simp)
      | some r3 =>
        rw [h3] at he
        obtain ⟨hst, hr2, hhok⟩ := parseHost_sound h3
        replace he : (match litCI marker r3 with
          | none => none
          | some r4 => parseFrag klen r4) = some (h, k) := he
        cases h4 : litCI marker r3 with
        | none => rw [h4] at he; exact absurd he (by simp)
        | some r4 =>
          rw [h4] at he
          obtain ⟨mk, hr3, hmkm⟩ := litCI_sound _ _ _ h4
          replace he : parseFrag klen r4 = some (h, k) := he
          obtain ⟨hr4, hhl, hha, hkl, hka⟩ := parseFrag_sound he
          refine ⟨s, sep, hst, mk, ?_, hsok, by simpa using hsepm, hhok, hmkm,
            hhl, hha, hkl, hka⟩
          rw [hcs, hr1, hr2, hr3, hr4]
          simp

theorem parseLink_complete {marker : List Char} {klen : Nat} {cs h k : List Char}
    (hs : linkShape marker klen cs h k) : parseLink marker klen cs = some (h, k) := by
  obtain ⟨s, sep, hst, mk, rfl, hsok, hsepm, hhok, hmkm, hhl, hha, hkl, hka⟩ := hs
  obtain ⟨c0, sep', rfl, hc0, hsep'⟩ := List.map_eq_cons_iff.mp hsepm
  obtain ⟨c1, sep'', rfl, hc1, hsep''⟩ := List.map_eq_cons_iff.mp hsep'
  obtain ⟨c2, sep3, rfl, hc2, hsep3⟩ := List.map_eq_cons_iff.mp hsep''
  have hsep3' : sep3 = [] := by simpa using hsep3
  subst hsep3'
  have hshape : s ++ (c0 :: c1 :: c2 :: []) ++ hst ++ mk ++ h ++ '!' :: k =
      s ++ c0 :: c1 :: c2 :: (hst ++ (mk ++ (h ++ '!' :: k))) := by simp
  rw [hshape]
  have h1 := parseScheme_of hsok (show c0.toLower ≠ 's' by rw [hc0]; decide)
    (c1 :: c2 :: (hst ++ (mk ++ (h ++ '!' :: k))))
  have h2 : litCI [':', '/', '/'] (c0 :: c1 :: c2 :: (hst ++ (mk ++ (h ++ '!' :: k)))) =
      some (hst ++ (mk ++ (h ++ '!' :: k))) :=
    litCI_of [':', '/', '/'] [c0, c1, c2] _ (by simp [hc0, hc1, hc2])
  have h3 : parseHost (hst ++ (mk ++ (h ++ '!' :: k))) = some (mk ++ (h ++ '!' :: k)) :=
    parseHost_of hhok _
  have h4 : litCI marker (mk ++ (h ++ '!' :: k)) = some (h ++ '!' :: k) :=
    litCI_of marker mk _ hmkm
  have h5 : parseFrag klen (h ++ '!' :: k) = some (h, k) := parseFrag_pos hhl hha hkl hka
  simp [parseLink, h1, h2, h3, h4, h5]

theorem all_isLinkChar_of_lower {a b : List Char}
    (hab : a.map Char.toLower = b.map Char.toLower)
    (hb : b.all isLinkChar = true) : a.all isLinkChar = true := by
  rw [List.all_eq_true] at hb ⊢
  intro x hx
  have hx2 : x.toLower ∈ a.map Char.toLower := List.mem_map_of_mem _ hx
  rw [hab] at hx2
  obtain ⟨y, hy, hyx⟩ := List.mem_map.mp hx2
  rw [isLinkChar_lower x, ← hyx, ← isLinkChar_lower y]
  exact hb y hy

theorem linkShape_transport {marker : List Char} {klen : Nat} {cs cs' h k : List Char}
    (hl : cs'.map Char.toLower = cs.map Char.toLower)
    (hs : linkShape marker klen cs h k) :
    ∃ h' k', linkShape marker klen cs' h' k' ∧
      h'.map Char.toLower = h.map Char.toLower ∧
      k'.map Char.toLower = k.map Char.toLower := by
  obtain ⟨s, sep, hst, mk, rfl, hsok, hsepm, hhok, hmkm, hhl, hha, hkl, hka⟩ := hs
  rw [show ((((s ++ sep) ++ hst) ++ mk) ++ h) ++ '!' :: k =
    s ++ (sep ++ (hst ++ (mk ++ (h ++ '!' :: k)))) from by simp] at hl
  simp only [List.map_append] at hl
  obtain ⟨s', rest1, hcs', hms, hm1⟩ := List.map_eq_append_iff.mp hl
  obtain ⟨sep', rest2, hr1, hmsep, hm2⟩ := List.map_eq_append_iff.mp hm1
  obtain ⟨hst', rest3, hr2, hmhst, hm3⟩ := List.map_eq_append_iff.mp hm2
  obtain ⟨mk', rest4, hr3, hmmk, hm4⟩ := List.map_eq_append_iff.mp hm3
  obtain ⟨h', rest5, hr4, hmh, hm5⟩ := List.map_eq_append_iff.mp hm4
  rw [List.map_cons] at hm5
  obtain ⟨b, k', hr5, hmb, hmk'⟩ := List.map_eq_cons_iff.mp hm5
  have hb : b = '!' := toLower_fix (by rw [hmb]; decide) (by decide)
  refine ⟨h', k', ⟨s', sep', hst', mk', ?_, ?_, ?_, ?_, ?_, ?_, ?_, ?_, ?_⟩, hmh, hmk'⟩
  · rw [hcs', hr1, hr2, hr3, hr4, hr5, hb]
    simp
  · cases hsok with
    | inl hx => exact Or.inl (hms.trans hx)
    | inr hx => exact Or.inr (hms.trans hx)
  · exact hmsep.trans hsepm
  · cases hhok with
    | inl hx => exact Or.inl (hmhst.trans hx)
    | inr hx => exact Or.inr (hmhst.trans hx)
  · exact hmmk.trans hmkm
  · have := congrArg List.length hmh
    simpa [hhl] using this
  · exact all_isLinkChar_of_lower hmh hha
  · have := congrArg List.length hmk'
    simpa [hkl] using this
  · exact all_isLinkChar_of_lower hmk' hka

theorem parseLink_match {marker : List Char} {klen : Nat} {cs cs' : List Char}
    (hl : cs'.map Char.toLower = cs.map Char.toLower) :
    (∀ h k, parseLink marker klen cs = some (h, k) →
      ∃ h' k', parseLink marker klen cs' = some (h', k') ∧
        h'.map Char.toLower = h.map Char.toLower ∧
        k'.map Char.toLower = k.map Char.toLower) ∧
    (parseLink marker klen cs = none → parseLink marker klen cs' = none) := by
  constructor
  · intro h k he
    obtain ⟨h', k', hs', hmh, hmk⟩ := linkShape_transport hl (parseLink_sound he)
    exact ⟨h', k', parseLink_complete hs', hmh, hmk⟩
  · intro he
    cases he' : parseLink marker klen cs' with
    | none => rfl
    | some hk =>
      exfalso
      obtain ⟨h2, k2, hs2, _, _⟩ :=
        linkShape_transport hl.symm (parseLink_sound (show parseLink marker klen cs' =
          some (hk.1, hk.2) from by rw [he']))
      rw [parseLink_complete hs2] at he
      exact Option.noConfusion he

theorem upperVariantB_lower : ∀ {cs cs' : List Char}, upperVariantB cs cs' = true →
    cs'.map Char.toLower = cs.map Char.toLower
  | [], [], _ => rfl
  | [], _ :: _, h => by simp [upperVariantB] at h
  | _ :: _, [], h => by simp [upperVariantB] at h
  | c :: cs, c' :: cs', h => by
    simp only [upperVariantB, Bool.and_eq_true, Bool.or_eq_true, beq_iff_eq] at h
    simp only [List.map_cons, List.cons.injEq]
    refine ⟨?_, upperVariantB_lower h.2⟩
    cases h.1 with
    | inl hx => rw [hx]
    | inr hx => rw [hx]; exact toLower_toUpper c

/-! ### Claim theorems for the link classifier -/

/-- C3: for every syntactically valid File-reference string (scheme http/https,
host mega.nz or mega.co.nz, fragment `#!<8>!<43>` over `[A-Za-z0-9_-]`), `classify`
returns a `fileRef` whose handle and key are exactly the embedded substrings; same
for Folder strings (`#F!<8>!<22>`, marker caseless) yielding `folderRef`; and every
such string violating handle length, key length, alphabet, or host (a slash-free
host not caselessly equal to mega.nz / mega.co.nz) is classified invalid. -/
theorem C3_classifier_roundtrip (scheme host h k : List Char) (m : Char)
    (hs : schemeOkL scheme) (hh : hostOkL host) (hm : m.toLower = 'f')
    (hostBad : List Char) (hbadhost : ¬hostOkL hostBad) (hslash : '/' ∉ hostBad) :
    (h.length = 8 → h.all isLinkChar = true → k.length = 43 → k.all isLinkChar = true →
      classify (mkFileLink scheme host h k) = Ref.fileRef (String.mk h) (String.mk k)) ∧
    (h.length = 8 → h.all isLinkChar = true → k.length = 22 → k.all isLinkChar = true →
      classify (mkFolderLink scheme host m h k) = Ref.folderRef (String.mk h) (String.mk k)) ∧
    (h.all isLinkChar = true → k.all isLinkChar = true → (h.length ≠ 8 ∨ k.length ≠ 43) →
      classify (mkFileLink scheme host h k) = Ref.invalid) ∧
    (h.all isLinkChar = true → k.all isLinkChar = true → (h.length ≠ 8 ∨ k.length ≠ 22) →
      classify (mkFolderLink scheme host m h k) = Ref.invalid) ∧
    (h.length = 8 → k.length = 43 → ¬(h.all isLinkChar = true ∧ k.all isLinkChar = true) →
      classify (mkFileLink scheme host h k) = Ref.invalid) ∧
    (h.length = 8 → k.length = 22 → ¬(h.all isLinkChar = true ∧ k.all isLinkChar = true) →
      classify (mkFolderLink scheme host m h k) = Ref.invalid) ∧
    (classify (mkFileLink scheme hostBad h k) = Ref.invalid) ∧
    (classify (mkFolderLink scheme hostBad m h k) = Ref.invalid) := by
  refine ⟨?_, ?_, ?_, ?_, ?_, ?_, ?_, ?_⟩
  · intro hl ha kl ka
    have hf : parseFileLink (mkFileLink scheme host h k).data = some (h, k) := by
      show parseFileLink
        (scheme ++ ':' :: '/' :: '/' :: (host ++ '/' :: '#' :: '!' :: (h ++ '!' :: k))) =
        some (h, k)
      rw [parseFileLink_shape hs hh]
      show parseFrag 43 (h ++ '!' :: k) = some (h, k)
      exact parseFrag_pos hl ha kl ka
    simp [classify, hf]
  · intro hl ha kl ka
    have hf : parseFileLink (mkFolderLink scheme host m h k).data = none :=
      parseFileLink_folder_shape hs hh hm _
    have hg : parseFolderLink (mkFolderLink scheme host m h k).data = some (h, k) := by
      show parseFolderLink
        (scheme ++ ':' :: '/' :: '/' :: (host ++ '/' :: '#' :: m :: '!' :: (h ++ '!' :: k))) =
        some (h, k)
      rw [parseFolderLink_shape hs hh hm]
      show parseFrag 22 (h ++ '!' :: k) = some (h, k)
      exact parseFrag_pos hl ha kl ka
    simp [classify, hf, hg]
  · intro ha ka hbad
    have hf : parseFileLink (mkFileLink scheme host h k).data = none := by
      show parseFileLink
        (scheme ++ ':' :: '/' :: '/' :: (host ++ '/' :: '#' :: '!' :: (h ++ '!' :: k))) = none
      rw [parseFileLink_shape hs hh]
      show parseFrag 43 (h ++ '!' :: k) = none
      exact parseFrag_badlen ha ka hbad
    have hg : parseFolderLink (mkFileLink scheme host h k).data = none :=
      parseFolderLink_file_shape hs hh _
    simp [classify, hf, hg]
  · intro ha ka hbad
    have hf : parseFileLink (mkFolderLink scheme host m h k).data = none :=
      parseFileLink_folder_shape hs hh hm _
    have hg : parseFolderLink (mkFolderLink scheme host m h k).data = none := by
      show parseFolderLink
        (scheme ++ ':' :: '/' :: '/' :: (host ++ '/' :: '#' :: m :: '!' :: (h ++ '!' :: k))) = none
      rw [parseFolderLink_shape hs hh hm]
      show parseFrag 22 (h ++ '!' :: k) = none
      exact parseFrag_badlen ha ka hbad
    simp [classify, hf, hg]
  · intro hl kl hbad
    have hf : parseFileLink (mkFileLink scheme host h k).data = none := by
      show parseFileLink
        (scheme ++ ':' :: '/' :: '/' :: (host ++ '/' :: '#' :: '!' :: (h ++ '!' :: k))) = none
      rw [parseFileLink_shape hs hh]
      show parseFrag 43 (h ++ '!' :: k) = none
      exact parseFrag_badalpha hl kl hbad
    have hg : parseFolderLink (mkFileLink scheme host h k).data = none :=
      parseFolderLink_file_shape hs hh _
    simp [classify, hf, hg]
  · intro hl kl hbad
    have hf : parseFileLink (mkFolderLink scheme host m h k).data = none :=
      parseFileLink_folder_shape hs hh hm _
    have hg : parseFolderLink (mkFolderLink scheme host m h k).data = none := by
      show parseFolderLink
        (scheme ++ ':' :: '/' :: '/' :: (host ++ '/' :: '#' :: m :: '!' :: (h ++ '!' :: k))) = none
      rw [parseFolderLink_shape hs hh hm]
      show parseFrag 22 (h ++ '!' :: k) = none
      exact parseFrag_badalpha hl kl hbad
    simp [classify, hf, hg]
  · have hf : parseFileLink (mkFileLink scheme hostBad h k).data = none :=
      parseLink_badhost hs hbadhost hslash rfl 43 ('#' :: '!' :: (h ++ '!' :: k))
    have hg : parseFolderLink (mkFileLink scheme hostBad h k).data = none :=
      parseLink_badhost hs hbadhost hslash rfl 22 ('#' :: '!' :: (h ++ '!' :: k))
    simp [classify, hf, hg]
  · have hf : parseFileLink (mkFolderLink scheme hostBad m h k).data = none :=
      parseLink_badhost hs hbadhost hslash rfl 43 ('#' :: m :: '!' :: (h ++ '!' :: k))
    have hg : parseFolderLink (mkFolderLink scheme hostBad m h k).data = none :=
      parseLink_badhost hs hbadhost hslash rfl 22 ('#' :: m :: '!' :: (h ++ '!' :: k))
    simp [classify, hf, hg]

/-- Witness for C3 at concrete inputs: scheme `https`, host `mega.nz`, marker `F`,
bad host `evil.nz`, handle `abcdefgh`, key 43 times `b`. -/
theorem C3_classifier_roundtrip_witness :
    classify (mkFileLink ['h', 't', 't', 'p', 's'] ['m', 'e', 'g', 'a', '.', 'n', 'z']
        ['a', 'b', 'c', 'd', 'e', 'f', 'g', 'h'] (List.replicate 43 'b')) =
      Ref.fileRef (String.mk ['a', 'b', 'c', 'd', 'e', 'f', 'g', 'h'])
        (String.mk (List.replicate 43 'b')) :=
  (C3_classifier_roundtrip ['h', 't', 't', 'p', 's'] ['m', 'e', 'g', 'a', '.', 'n', 'z']
      ['a', 'b', 'c', 'd', 'e', 'f', 'g', 'h'] (List.replicate 43 'b') 'F'
      (Or.inr (by decide)) (Or.inl (by decide)) (by decide)
      ['e', 'v', 'i', 'l', '.', 'n', 'z'] (by unfold hostOkL; decide) (by decide)).1
    (by decide) (by decide) (by decide) (by decide)

/-- C4 counterexample: upper-casing a letter inside the handle leaves the
string classifiable but changes the captured handle (captures preserve the
subject string's case), so the parsed results are not identical. -/
theorem C4_case_insensitivity_counterexample :
    upperVariantB
        (String.data "https://mega.nz/#!aaaaaaaa!bbbbbbbbbbbbbbbbbbbbbbbbbbbbbbbbbbbbbbbbbbb")
        (String.data "https://mega.nz/#!Aaaaaaaa!bbbbbbbbbbbbbbbbbbbbbbbbbbbbbbbbbbbbbbbbbbb") = true ∧
    classify "https://mega.nz/#!aaaaaaaa!bbbbbbbbbbbbbbbbbbbbbbbbbbbbbbbbbbbbbbbbbbb" ≠
      classify "https://mega.nz/#!Aaaaaaaa!bbbbbbbbbbbbbbbbbbbbbbbbbbbbbbbbbbbbbbbbbbb" := by
  constructor
  · decide
  · decide

/-- C4 (amended): classifying a reference string and the same string with any
subset of its letters upper-cased yields the same tag (file / folder / invalid),
and handle and key captures that agree up to letter case (each capture is the
corresponding substring of its own input, case preserved). -/
theorem C4_case_insensitivity_amended (s s' : String)
    (hv : upperVariantB s.data s'.data = true) :
    refMatches (classify s) (classify s') := by
  have hl : s'.data.map Char.toLower = s.data.map Char.toLower := upperVariantB_lower hv
  unfold classify
  cases hf : parseFileLink s.data with
  | some hk =>
    have hf2 : parseLink ['/', '#', '!'] 43 s.data = some (hk.1, hk.2) := hf
    obtain ⟨h', k', hf', hmh, hmk⟩ := (parseLink_match hl).1 hk.1 hk.2 hf2
    have hf'2 : parseFileLink s'.data = some (h', k') := hf'
    rw [hf'2]
    exact ⟨hmh, hmk⟩
  | none =>
    have hf2 : parseFileLink s'.data = none := (parseLink_match hl).2 hf
    rw [hf2]
    cases hg : parseFolderLink s.data with
    | some hk =>
      have hg2 : parseLink ['/', '#', 'f', '!'] 22 s.data = some (hk.1, hk.2) := hg
      obtain ⟨h', k', hg', hmh, hmk⟩ := (parseLink_match hl).1 hk.1 hk.2 hg2
      have hg'2 : parseFolderLink s'.data = some (h', k') := hg'
      rw [hg'2]
      exact ⟨hmh, hmk⟩
    | none =>
      have hg2 : parseFolderLink s'.data = none := (parseLink_match hl).2 hg
      rw [hg2]
      trivial

/-- Witness for the amended C4 at a concrete pair of case variants. -/
theorem C4_case_insensitivity_amended_witness :
    refMatches
      (classify "https://mega.nz/#!aaaaaaaa!bbbbbbbbbbbbbbbbbbbbbbbbbbbbbbbbbbbbbbbbbbb")
      (classify "HTTPS://MEGA.NZ/#!AAAAAAAA!BBBBBBBBBBBBBBBBBBBBBBBBBBBBBBBBBBBBBBBBBBB") :=
  C4_case_insensitivity_amended _ _ (by decide)

theorem pathLe_refl (p : List String) : pathLe p p := ⟨[], by simp⟩

theorem pathLe_trans {p q r : List String} (h1 : pathLe p q) (h2 : pathLe q r) :
    pathLe p r := by
  obtain ⟨t1, rfl⟩ := h1
  obtain ⟨t2, rfl⟩ := h2
  exact ⟨t1 ++ t2, by simp⟩

theorem pathLe_child (p : List String) (n : String) : pathLe p (p ++ [n]) := ⟨[n], rfl⟩

theorem pathLe_length {p q : List String} (h : pathLe p q) : p.length ≤ q.length := by
  obtain ⟨t, rfl⟩ := h
  simp

theorem pathLe_child_eq {p : List String} {n m : String}
    (h : pathLe (p ++ [n]) (p ++ [m])) : n = m := by
  obtain ⟨t, ht⟩ := h
  have hlen := congrArg List.length ht
  simp only [List.length_append, List.length_cons, List.length_nil] at hlen
  have ht0 : t = [] := List.length_eq_zero.mp (by omega)
  subst ht0
  have hmn : m = n := by simpa using ht
  exact hmn.symm

/-! Filesystem frame: a sync step at `p` touches only paths below `p`. -/

mutual

theorem frame_node (w : World) (n : MegaNode) (p q : List String)
    (hne : (dl_sync_node w n p).2.1.fs q ≠ w.fs q) : pathLe p q := by
  cases n with
  | file name script =>
    by_cases hex : w.fs p ≠ FType.missing
    · simp [dl_sync_node, dl_sync_file, hex] at hne
    · by_cases hst : (retryLoop (scriptFetch script)).status
      · by_cases hq : q = p
        · subst hq; exact pathLe_refl q
        · simp [dl_sync_node, dl_sync_file, hex, hst, setFS, hq] at hne
      · simp [dl_sync_node, dl_sync_file, hex, hst] at hne
  | dir name cs =>
    have : (dl_sync_dir_core w cs p).2.1.fs q ≠ w.fs q := by
      simpa [dl_sync_node] using hne
    exact frame_dir w cs p q this

theorem frame_dir (w : World) (cs : List MegaNode) (p q : List String)
    (hne : (dl_sync_dir_core w cs p).2.1.fs q ≠ w.fs q) : pathLe p q := by
  by_cases hmiss : w.fs p = FType.missing
  · by_cases herr : w.mkdirErr p
    · simp [dl_sync_dir_core, hmiss, herr] at hne
    · by_cases hq : q = p
      · subst hq; exact pathLe_refl q
      · have hne2 : (dl_sync_children (setFS w p FType.directory) cs p).2.1.fs q ≠
            (setFS w p FType.directory).fs q := by
          simp only [dl_sync_dir_core, hmiss, herr, if_true, if_false, ite_true,
            ite_false] at hne
          simpa [setFS, hq] using hne
        obtain ⟨c, _, hle⟩ := frame_children (setFS w p FType.directory) cs p q hne2
        exact pathLe_trans (pathLe_child p (MegaNode.name c)) hle
  · by_cases hdir : w.fs p = FType.directory
    · have hne2 : (dl_sync_children w cs p).2.1.fs q ≠ w.fs q := by
        simpa [dl_sync_dir_core, hmiss, hdir] using hne
      obtain ⟨c, _, hle⟩ := frame_children w cs p q hne2
      exact pathLe_trans (pathLe_child p (MegaNode.name c)) hle
    · simp [dl_sync_dir_core, hmiss, hdir] at hne

theorem frame_children (w : World) (cs : List MegaNode) (p q : List String)
    (hne : (dl_sync_children w cs p).2.1.fs q ≠ w.fs q) :
    ∃ c ∈ cs, pathLe (p ++ [MegaNode.name c]) q := by
  cases cs with
  | nil => simp [dl_sync_children] at hne
  | cons c rest =>
    simp only [dl_sync_children] at hne
    by_cases h2 : (dl_sync_children (dl_sync_node w c (p ++ [c.name])).2.1 rest p).2.1.fs q =
        (dl_sync_node w c (p ++ [c.name])).2.1.fs q
    · have h1 : (dl_sync_node w c (p ++ [c.name])).2.1.fs q ≠ w.fs q := by
        intro hcon
        exact hne (by rw [h2, hcon])
      exact ⟨c, List.mem_cons_self c rest, frame_node w c (p ++ [c.name]) q h1⟩
    · obtain ⟨c', hmem, hle⟩ :=
        frame_children (dl_sync_node w c (p ++ [c.name])).2.1 rest p q h2
      exact ⟨c', List.mem_cons_of_mem c hmem, hle⟩

end

/-! ### Claim theorems for retry and the file step -/

theorem transient_eq {t : FetchResult} (h : t.transient = true) :
    t = FetchResult.err false := by
  cases t with
  | ok => simp [FetchResult.transient] at h
  | err b => cases b with
    | false => rfl
    | true => simp [FetchResult.transient] at h

/-- C2: fed a transient error on every attempt, the retry loop makes exactly 5
fetch attempts, waiting 2s, 4s, 8s, 16s (in microseconds) between them, and
gives up; fed a permanent (non-transient, i.e. matching
`(MEGA_ERROR, MEGA_ERROR_OTHER)`) error on the first attempt, it makes exactly
1 attempt and gives up with no wait. -/
theorem C2_retry_policy (fetch : Nat → FetchResult) :
    ((∀ i, (fetch i).transient = true) →
      retryLoop fetch =
        ⟨false, 5, 5, [2000000, 4000000, 8000000, 16000000]⟩) ∧
    ((fetch 0).transient = false ∧ fetch 0 ≠ FetchResult.ok →
      retryLoop fetch = ⟨false, 1, 1, []⟩) := by
  constructor
  · intro h
    have h0 := transient_eq (h 0)
    have h1 := transient_eq (h 1)
    have h2 := transient_eq (h 2)
    have h3 := transient_eq (h 3)
    have h4 := transient_eq (h 4)
    show retryAux fetch 5 0 2000000 = _
    rw [show (5 : Nat) = 4 + 1 from rfl]
    rw [retryAux, h0]
    rw [show (4 : Nat) = 3 + 1 from rfl]
    rw [retryAux, h1]
    rw [show (3 : Nat) = 2 + 1 from rfl]
    rw [retryAux, h2]
    rw [show (2 : Nat) = 1 + 1 from rfl]
    rw [retryAux, h3]
    rw [show (1 : Nat) = 0 + 1 from rfl]
    rw [retryAux, h4]
    rfl
  · intro ⟨hperm, hfail⟩
    have h0 : fetch 0 = FetchResult.err true := by
      cases hf : fetch 0 with
      | ok => exact absurd hf hfail
      | err b => cases b with
        | true => rfl
        | false => rw [hf] at hperm; simp [FetchResult.transient] at hperm
    show retryAux fetch 5 0 2000000 = _
    rw [show (5 : Nat) = 4 + 1 from rfl]
    rw [retryAux, h0]
    rfl

/-- Witness for C2: an always-transient oracle and an immediately-permanent
oracle. -/
theorem C2_retry_policy_witness :
    retryLoop (fun _ => FetchResult.err false) =
      ⟨false, 5, 5, [2000000, 4000000, 8000000, 16000000]⟩ ∧
    retryLoop (fun _ => FetchResult.err true) = ⟨false, 1, 1, []⟩ :=
  ⟨(C2_retry_policy (fun _ => FetchResult.err false)).1 (fun _ => rfl),
   (C2_retry_policy (fun _ => FetchResult.err true)).2 ⟨rfl, by decide⟩⟩

/-- C5: a file step of the tree sync whose local target already exists (file
or directory) fails with no fetch ever issued against that path and the
filesystem unchanged. -/
theorem C5_no_overwrite (w : World) (p : List String) (script : List FetchResult)
    (hex : w.fs p ≠ FType.missing) :
    dl_sync_file w p script = (false, w, []) := by
  simp [dl_sync_file, hex]

/-- Witness for C5: an existing file at the target. -/
theorem C5_no_overwrite_witness :
    dl_sync_file ⟨fun _ => FType.file, fun _ => false⟩ ["dest", "f"] [] =
      (false, ⟨fun _ => FType.file, fun _ => false⟩, []) :=
  C5_no_overwrite ⟨fun _ => FType.file, fun _ => false⟩ ["dest", "f"] [] (by decide)

theorem children_fs_parent (w : World) (cs : List MegaNode) (p : List String) :
    (dl_sync_children w cs p).2.1.fs p = w.fs p := by
  by_cases h : (dl_sync_children w cs p).2.1.fs p = w.fs p
  · exact h
  · obtain ⟨c, _, hle⟩ := frame_children w cs p p h
    have h2 := pathLe_length hle
    simp only [List.length_append, List.length_cons, List.length_nil] at h2
    omega

/-- C6: the directory step of the tree sync: a missing local target is
created (the step fails if creation errors); an existing non-directory makes
the step fail immediately with the filesystem untouched; an existing
directory is entered without modification (it is still a directory after
the whole subtree was walked). -/
theorem C6_directory_step (w : World) (cs : List MegaNode) (p : List String) :
    (w.fs p = FType.missing → w.mkdirErr p = true →
      dl_sync_dir_core w cs p = (false, w, [Ev.mkdir p])) ∧
    (w.fs p = FType.missing → w.mkdirErr p = false →
      (dl_sync_dir_core w cs p =
        ((dl_sync_children (setFS w p FType.directory) cs p).1,
         (dl_sync_children (setFS w p FType.directory) cs p).2.1,
         Ev.mkdir p :: (dl_sync_children (setFS w p FType.directory) cs p).2.2) ∧
       (dl_sync_dir_core w cs p).2.1.fs p = FType.directory)) ∧
    (w.fs p = FType.file → dl_sync_dir_core w cs p = (false, w, [])) ∧
    (w.fs p = FType.directory →
      (dl_sync_dir_core w cs p = dl_sync_children w cs p ∧
       (dl_sync_dir_core w cs p).2.1.fs p = FType.directory)) := by
  refine ⟨?_, ?_, ?_, ?_⟩
  · intro h1 h2
    simp [dl_sync_dir_core, h1, h2]
  · intro h1 h2
    have heq : dl_sync_dir_core w cs p =
        ((dl_sync_children (setFS w p FType.directory) cs p).1,
         (dl_sync_children (setFS w p FType.directory) cs p).2.1,
         Ev.mkdir p :: (dl_sync_children (setFS w p FType.directory) cs p).2.2) := by
      simp [dl_sync_dir_core, h1, h2]
    refine ⟨heq, ?_⟩
    rw [heq]
    show (dl_sync_children (setFS w p FType.directory) cs p).2.1.fs p = FType.directory
    rw [children_fs_parent]
    simp [setFS]
  · intro h1
    simp [dl_sync_dir_core, h1]
  · intro h1
    have heq : dl_sync_dir_core w cs p = dl_sync_children w cs p := by
      simp [dl_sync_dir_core, h1]
    refine ⟨heq, ?_⟩
    rw [heq, children_fs_parent]
    exact h1

/-- Witness for C6: an existing file blocks the step; a failing creation
fails the step. -/
theorem C6_directory_step_witness :
    (dl_sync_dir_core ⟨fun _ => FType.file, fun _ => false⟩ [] ["d"] =
      (false, ⟨fun _ => FType.file, fun _ => false⟩, [])) ∧
    (dl_sync_dir_core ⟨fun _ => FType.missing, fun _ => true⟩ [] ["d"] =
      (false, ⟨fun _ => FType.missing, fun _ => true⟩, [Ev.mkdir ["d"]])) :=
  ⟨(C6_directory_step ⟨fun _ => FType.file, fun _ => false⟩ [] ["d"]).2.2.1 rfl,
   (C6_directory_step ⟨fun _ => FType.missing, fun _ => true⟩ [] ["d"]).1 rfl rfl⟩

theorem children_status_eq : ∀ (cs : List MegaNode) (w : World) (p : List String),
    (dl_sync_children w cs p).1 = (childResults w cs p).all id
  | [], w, p => by simp [dl_sync_children, childResults]
  | c :: rest, w, p => by
    simp only [dl_sync_children, childResults, List.all_cons]
    rw [children_status_eq rest]
    rfl

theorem childResults_length : ∀ (cs : List MegaNode) (w : World) (p : List String),
    (childResults w cs p).length = cs.length
  | [], _, _ => rfl
  | c :: rest, w, p => by
    simp only [childResults, List.length_cons]
    rw [childResults_length rest]

theorem pathName_inj {p : List String} {a b : String} (h : p ++ [a] = p ++ [b]) :
    a = b := by
  have := List.append_cancel_left h
  simpa using this

/-- Walking a block of files whose fetches all succeed materializes each of
them and nothing else. -/
theorem sync_goodFiles : ∀ (names : List String) (w : World) (p : List String),
    (∀ nm ∈ names, w.fs (p ++ [nm]) = FType.missing) → names.Nodup →
    (dl_sync_children w (names.map fun nm => MegaNode.file nm []) p).1 = true ∧
    ∀ q, (dl_sync_children w (names.map fun nm => MegaNode.file nm []) p).2.1.fs q =
      if q ∈ names.map (fun nm => p ++ [nm]) then FType.file else w.fs q
  | [], w, p, _, _ => by
    constructor
    · simp [dl_sync_children]
    · intro q
      simp [dl_sync_children]
  | nm :: rest, w, p, hmiss, hnodup => by
    have hm0 : w.fs (p ++ [nm]) = FType.missing := hmiss nm (List.mem_cons_self _ _)
    have hstep : dl_sync_node w (MegaNode.file nm []) (p ++ [nm]) =
        (true, setFS w (p ++ [nm]) FType.file, [Ev.getFile (p ++ [nm])]) := by
      simp only [dl_sync_node]
      simp [dl_sync_file, hm0, retryLoop, retryAux, scriptFetch]
    have hrest := sync_goodFiles rest (setFS w (p ++ [nm]) FType.file) p
      (by
        intro m hmem
        have hne : m ≠ nm := by
          intro hcon
          subst hcon
          exact (List.nodup_cons.mp hnodup).1 hmem
        have : ¬(p ++ [m] = p ++ [nm]) := fun hcon => hne (pathName_inj hcon)
        simp [setFS, this]
        exact hmiss m (List.mem_cons_of_mem _ hmem))
      (List.nodup_cons.mp hnodup).2
    constructor
    · simp only [List.map_cons, dl_sync_children]
      rw [show MegaNode.name (MegaNode.file nm []) = nm from rfl, hstep]
      simp only []
      rw [hrest.1]
      rfl
    · intro q
      simp only [List.map_cons, dl_sync_children]
      rw [show MegaNode.name (MegaNode.file nm []) = nm from rfl, hstep]
      simp only []
      rw [hrest.2 q]
      by_cases hq : q = p ++ [nm]
      · by_cases hqr : q ∈ rest.map (fun m => p ++ [m]) <;>
          simp [hqr, setFS, hq, List.mem_cons]
      · by_cases hqr : q ∈ rest.map (fun m => p ++ [m]) <;>
          simp [hqr, setFS, hq, List.mem_cons]

theorem sync_badFile (w : World) (q : List String) (hm : w.fs q = FType.missing) :
    dl_sync_file w q [FetchResult.err true] = (false, w, [Ev.getFile q]) := by
  simp [dl_sync_file, hm, retryLoop, retryAux, scriptFetch]

theorem mem_pathMap {p : List String} {x : String} {names : List String} :
    p ++ [x] ∈ names.map (fun nm => p ++ [nm]) ↔ x ∈ names := by
  rw [List.mem_map]
  constructor
  · rintro ⟨y, hy, hyx⟩
    rw [← pathName_inj hyx]
    exact hy
  · intro hx
    exact ⟨x, hx, rfl⟩

theorem dl_sync_children_append : ∀ (cs1 cs2 : List MegaNode) (w : World)
    (p : List String),
    dl_sync_children w (cs1 ++ cs2) p =
      ((dl_sync_children w cs1 p).1 &&
         (dl_sync_children (dl_sync_children w cs1 p).2.1 cs2 p).1,
       (dl_sync_children (dl_sync_children w cs1 p).2.1 cs2 p).2.1,
       (dl_sync_children w cs1 p).2.2 ++
         (dl_sync_children (dl_sync_children w cs1 p).2.1 cs2 p).2.2)
  | [], cs2, w, p => by
    simp [dl_sync_children]
  | c :: rest, cs2, w, p => by
    simp only [List.cons_append, dl_sync_children]
    rw [dl_sync_children_append rest cs2]
    simp [Bool.and_assoc, List.append_assoc]

/-- C7: the children walk visits every child in session order (one result per
child, in order, never short-circuited) and the directory's result is the AND
of its own step and every child's result; concretely, for a directory of
leaf files with exactly one permanently failing fetch, the sync returns
false while every other file is still materialized. -/
theorem C7_aggregate_failure (w : World) (cs : List MegaNode) (p : List String)
    (pre post : List String) (bad : String)
    (hdir : w.fs p = FType.directory)
    (hnodup : (pre ++ bad :: post).Nodup)
    (hmiss : ∀ nm ∈ pre ++ bad :: post, w.fs (p ++ [nm]) = FType.missing) :
    ((dl_sync_children w cs p).1 = (childResults w cs p).all id ∧
     (childResults w cs p).length = cs.length) ∧
    ((dl_sync_dir_core w
        (pre.map (fun nm => MegaNode.file nm []) ++
          MegaNode.file bad [FetchResult.err true] ::
            post.map (fun nm => MegaNode.file nm [])) p).1 = false ∧
     ∀ nm ∈ pre ++ post,
       (dl_sync_dir_core w
          (pre.map (fun nm => MegaNode.file nm []) ++
            MegaNode.file bad [FetchResult.err true] ::
              post.map (fun nm => MegaNode.file nm [])) p).2.1.fs (p ++ [nm]) =
         FType.file) := by
  refine ⟨⟨children_status_eq cs w p, childResults_length cs w p⟩, ?_⟩
  obtain ⟨hndpre, hndrest, hdisj⟩ := List.nodup_append.mp hnodup
  obtain ⟨hbadpost, hndpost⟩ := List.nodup_cons.mp hndrest
  have hmisspre : ∀ nm ∈ pre, w.fs (p ++ [nm]) = FType.missing :=
    fun nm h => hmiss nm (List.mem_append_left _ h)
  have hpre := sync_goodFiles pre w p hmisspre hndpre
  have hbadmiss :
      (dl_sync_children w (pre.map fun nm => MegaNode.file nm []) p).2.1.fs
        (p ++ [bad]) = FType.missing := by
    rw [hpre.2]
    have hnot : ¬(p ++ [bad] ∈ pre.map fun nm => p ++ [nm]) := by
      rw [mem_pathMap]
      intro hcon
      exact hdisj hcon (List.mem_cons_self _ _)
    rw [if_neg hnot]
    exact hmiss bad (List.mem_append_right _ (List.mem_cons_self _ _))
  have hpostmiss : ∀ nm ∈ post,
      (dl_sync_children w (pre.map fun m => MegaNode.file m []) p).2.1.fs
        (p ++ [nm]) = FType.missing := by
    intro nm hmem
    rw [hpre.2]
    have hnot : ¬(p ++ [nm] ∈ pre.map fun m => p ++ [m]) := by
      rw [mem_pathMap]
      intro hcon
      exact hdisj hcon (List.mem_cons_of_mem _ hmem)
    rw [if_neg hnot]
    exact hmiss nm (List.mem_append_right _ (List.mem_cons_of_mem _ hmem))
  have hpost := sync_goodFiles post
    (dl_sync_children w (pre.map fun m => MegaNode.file m []) p).2.1 p
    hpostmiss hndpost
  have hbadstep := sync_badFile
    (dl_sync_children w (pre.map fun m => MegaNode.file m []) p).2.1
    (p ++ [bad]) hbadmiss
  have hcore : dl_sync_dir_core w
      (pre.map (fun nm => MegaNode.file nm []) ++
        MegaNode.file bad [FetchResult.err true] ::
          post.map (fun nm => MegaNode.file nm [])) p =
      dl_sync_children w
        (pre.map (fun nm => MegaNode.file nm []) ++
          MegaNode.file bad [FetchResult.err true] ::
            post.map (fun nm => MegaNode.file nm [])) p := by
    simp [dl_sync_dir_core, hdir]
  have happ := dl_sync_children_append (pre.map fun nm => MegaNode.file nm [])
    (MegaNode.file bad [FetchResult.err true] :: post.map fun nm => MegaNode.file nm [])
    w p
  have hcons : dl_sync_children
      (dl_sync_children w (pre.map fun m => MegaNode.file m []) p).2.1
      (MegaNode.file bad [FetchResult.err true] ::
        post.map fun nm => MegaNode.file nm []) p =
      (false,
       (dl_sync_children
          (dl_sync_children w (pre.map fun m => MegaNode.file m []) p).2.1
          (post.map fun nm => MegaNode.file nm []) p).2.1,
       [Ev.getFile (p ++ [bad])] ++
         (dl_sync_children
            (dl_sync_children w (pre.map fun m => MegaNode.file m []) p).2.1
            (post.map fun nm => MegaNode.file nm []) p).2.2) := by
    simp only [dl_sync_children, dl_sync_node]
    rw [show MegaNode.name (MegaNode.file bad [FetchResult.err true]) = bad from rfl]
    rw [hbadstep]
    simp
  constructor
  · rw [hcore, happ, hcons]
    simp
  · intro nm hmem
    rw [hcore, happ, hcons]
    show (dl_sync_children
        (dl_sync_children w (pre.map fun m => MegaNode.file m []) p).2.1
        (post.map fun nm => MegaNode.file nm []) p).2.1.fs (p ++ [nm]) = FType.file
    rw [hpost.2]
    rcases List.mem_append.mp hmem with hin | hin
    · have hnot : ¬(p ++ [nm] ∈ post.map fun m => p ++ [m]) := by
        rw [mem_pathMap]
        intro hcon
        exact hdisj hin (List.mem_cons_of_mem _ hcon)
      rw [if_neg hnot, hpre.2, if_pos (mem_pathMap.mpr hin)]
    · rw [if_pos (mem_pathMap.mpr hin)]

/-- Witness for C7: root directory `d` with files `a` (ok), `b` (permanent
failure), `c` (ok): result false, `c` still materialized. -/
theorem C7_aggregate_failure_witness :
    (dl_sync_dir_core
        ⟨fun q => if q = ["d"] then FType.directory else FType.missing, fun _ => false⟩
        ((["a"].map fun nm => MegaNode.file nm []) ++
          MegaNode.file "b" [FetchResult.err true] ::
            (["c"].map fun nm => MegaNode.file nm [])) ["d"]).1 = false ∧
    (dl_sync_dir_core
        ⟨fun q => if q = ["d"] then FType.directory else FType.missing, fun _ => false⟩
        ((["a"].map fun nm => MegaNode.file nm []) ++
          MegaNode.file "b" [FetchResult.err true] ::
            (["c"].map fun nm => MegaNode.file nm [])) ["d"]).2.1.fs (["d"] ++ ["c"]) =
      FType.file :=
  ⟨(C7_aggregate_failure
      ⟨fun q => if q = ["d"] then FType.directory else FType.missing, fun _ => false⟩
      [] ["d"] ["a"] ["c"] "b" (by decide) (by decide) (by decide)).2.1,
   (C7_aggregate_failure
      ⟨fun q => if q = ["d"] then FType.directory else FType.missing, fun _ => false⟩
      [] ["d"] ["a"] ["c"] "b" (by decide) (by decide) (by decide)).2.2 "c" (by decide)⟩

/-- C9: each FILEINFO event overwrites the single current-file-name slot, so
after any event sequence the slot — and hence the name reported on success —
is the name of the most recent FileInfo event (or the prior content if none
arrived). -/
theorem C9_current_file_slot (stream noprogress : Bool) (st : RepState)
    (evs : List StatusData) :
    (processEvents stream noprogress st evs).curFile =
      ((lastFileInfoName evs).elim st.curFile some) ∧
    successMessageName (processEvents stream noprogress st evs) =
      ((lastFileInfoName evs).elim st.curFile some) := by
  have key : ∀ (l : List StatusData) (s0 : RepState),
      (processEvents stream noprogress s0 l).curFile =
        ((lastFileInfoName l).elim s0.curFile some) := by
    intro l
    induction l using List.reverseRecOn with
    | nil => intro s0; rfl
    | append_singleton l d ih =>
      intro s0
      have hfold : processEvents stream noprogress s0 (l ++ [d]) =
          status_callback stream noprogress (processEvents stream noprogress s0 l) d := by
        simp [processEvents, List.foldl_append]
      rw [hfold]
      cases d with
      | rawData buf =>
        have h1 : (status_callback stream noprogress
            (processEvents stream noprogress s0 l) (StatusData.rawData buf)).curFile =
            (processEvents stream noprogress s0 l).curFile := by
          by_cases hs : stream <;> simp [status_callback, hs]
        rw [h1, ih s0]
        have h2 : lastFileInfoName (l ++ [StatusData.rawData buf]) = lastFileInfoName l := by
          simp [lastFileInfoName, List.reverse_append]
        rw [h2]
      | fileinfo name =>
        have h1 : (status_callback stream noprogress
            (processEvents stream noprogress s0 l) (StatusData.fileinfo name)).curFile =
            some name := rfl
        rw [h1]
        have h2 : lastFileInfoName (l ++ [StatusData.fileinfo name]) = some name := by
          simp [lastFileInfoName, List.reverse_append]
        rw [h2]
        rfl
      | progressEv a b =>
        have h1 : (status_callback stream noprogress
            (processEvents stream noprogress s0 l) (StatusData.progressEv a b)).curFile =
            (processEvents stream noprogress s0 l).curFile := by
          by_cases hs : noprogress <;> simp [status_callback, hs]
        rw [h1, ih s0]
        have h2 : lastFileInfoName (l ++ [StatusData.progressEv a b]) = lastFileInfoName l := by
          simp [lastFileInfoName, List.reverse_append]
        rw [h2]
  exact ⟨key evs st, key evs st⟩

/-- C8: requesting stream mode together with more than one reference, or
together with a folder reference, is rejected with a non-zero exit before
any operation — in particular before any network call — is issued (the
event trace is empty). -/
theorem C8_streaming_exclusivity (w : World) (sess : Sess) (dest : List String) :
    (∀ links : List String, 1 < links.length →
      runMain w sess true dest links = ⟨1, w, []⟩) ∧
    (∀ l h k, classify l = Ref.folderRef h k →
      runMain w sess true dest [l] = ⟨1, w, []⟩) := by
  constructor
  · intro links hlen
    have h1 : ¬(links.length < 1) := by omega
    have h2 : ¬(links.length = 1) := by omega
    simp [runMain, h1, h2]
  · intro l h k hcl
    simp [runMain, procLinks, hcl]

/-- Witness for C8: two file links under streaming; one folder link under
streaming. -/
theorem C8_streaming_exclusivity_witness :
    runMain ⟨fun _ => FType.missing, fun _ => false⟩
        ⟨fun _ _ => FetchResult.ok, fun _ => true, fun _ => []⟩ true ["dl"]
        ["https://mega.nz/#!aaaaaaaa!bbbbbbbbbbbbbbbbbbbbbbbbbbbbbbbbbbbbbbbbbbb",
         "https://mega.nz/#!cccccccc!bbbbbbbbbbbbbbbbbbbbbbbbbbbbbbbbbbbbbbbbbbb"] =
      ⟨1, ⟨fun _ => FType.missing, fun _ => false⟩, []⟩ ∧
    runMain ⟨fun _ => FType.missing, fun _ => false⟩
        ⟨fun _ _ => FetchResult.ok, fun _ => true, fun _ => []⟩ true ["dl"]
        ["https://mega.nz/#F!aaaaaaaa!bbbbbbbbbbbbbbbbbbbbbb"] =
      ⟨1, ⟨fun _ => FType.missing, fun _ => false⟩, []⟩ :=
  ⟨(C8_streaming_exclusivity ⟨fun _ => FType.missing, fun _ => false⟩
      ⟨fun _ _ => FetchResult.ok, fun _ => true, fun _ => []⟩ ["dl"]).1 _ (by decide),
   (C8_streaming_exclusivity ⟨fun _ => FType.missing, fun _ => false⟩
      ⟨fun _ _ => FetchResult.ok, fun _ => true, fun _ => []⟩ ["dl"]).2
     "https://mega.nz/#F!aaaaaaaa!bbbbbbbbbbbbbbbbbbbbbb"
     "aaaaaaaa" "bbbbbbbbbbbbbbbbbbbbbb" (by decide)⟩

/-- C1 (code-bug exhibit): a batch of two file references in which the first
fails permanently and the second succeeds exits with status 0 — the success
branch of the retry loop (line 271) writes `status = 0` into the shared
variable, erasing the first reference's recorded failure.  The same failing
reference alone exits 1. -/
theorem C1_exit_status_reset :
    (runMain ⟨fun _ => FType.missing, fun _ => false⟩
        ⟨fun i _ => if i = 0 then FetchResult.err true else FetchResult.ok,
         fun _ => true, fun _ => []⟩ false ["dl"]
        ["https://mega.nz/#!aaaaaaaa!bbbbbbbbbbbbbbbbbbbbbbbbbbbbbbbbbbbbbbbbbbb"]).exit
      = 1 ∧
    (runMain ⟨fun _ => FType.missing, fun _ => false⟩
        ⟨fun i _ => if i = 0 then FetchResult.err true else FetchResult.ok,
         fun _ => true, fun _ => []⟩ false ["dl"]
        ["https://mega.nz/#!aaaaaaaa!bbbbbbbbbbbbbbbbbbbbbbbbbbbbbbbbbbbbbbbbbbb",
         "https://mega.nz/#!cccccccc!bbbbbbbbbbbbbbbbbbbbbbbbbbbbbbbbbbbbbbbbbbb"]).exit
      = 0 := by
  constructor
  · decide
  · decide

/-- C10: a folder reference requires the top-level destination to already
exist as a directory: a missing or non-directory destination fails the
reference (exit 1) with the filesystem untouched (the destination is never
created), only the folder open having been issued; a directory destination
has the remote root's children synced directly into it — the walk starts at
the destination itself with the root's children, and nothing is created
under a subdirectory named after the remote root. -/
theorem C10_folder_destination (w : World) (sess : Sess) (dest : List String)
    (l : String) (h k : String) (root : MegaNode)
    (hcl : classify l = Ref.folderRef h k)
    (hopen : sess.openOk 0 = true) (hls : sess.lsRoot 0 = [root]) :
    ((w.fs dest = FType.missing ∨ w.fs dest = FType.file) →
      runMain w sess false dest [l] = ⟨1, w, [Ev.openFolder h k]⟩) ∧
    (w.fs dest = FType.directory →
      runMain w sess false dest [l] =
        ⟨if (dl_sync_dir_core w root.childList dest).1 then 0 else 1,
         (dl_sync_dir_core w root.childList dest).2.1,
         Ev.openFolder h k :: (dl_sync_dir_core w root.childList dest).2.2⟩) ∧
    (w.fs dest = FType.directory →
      (∀ c ∈ root.childList, MegaNode.name c ≠ MegaNode.name root) →
      (runMain w sess false dest [l]).w.fs (dest ++ [MegaNode.name root]) =
        w.fs (dest ++ [MegaNode.name root])) := by
  have hb : w.fs dest = FType.directory →
      runMain w sess false dest [l] =
        ⟨if (dl_sync_dir_core w root.childList dest).1 then 0 else 1,
         (dl_sync_dir_core w root.childList dest).2.1,
         Ev.openFolder h k :: (dl_sync_dir_core w root.childList dest).2.2⟩ := by
    intro hdir
    simp [runMain, procLinks, hcl, hopen, hls, hdir]
  refine ⟨?_, hb, ?_⟩
  · intro hnd
    have hne : ¬(w.fs dest = FType.directory) := by
      cases hnd with
      | inl hx => rw [hx]; intro hcon; exact FType.noConfusion hcon
      | inr hx => rw [hx]; intro hcon; exact FType.noConfusion hcon
    simp [runMain, procLinks, hcl, hopen, hls, hne]
  · intro hdir hnames
    rw [hb hdir]
    show (dl_sync_dir_core w root.childList dest).2.1.fs (dest ++ [MegaNode.name root]) =
      w.fs (dest ++ [MegaNode.name root])
    have hcore : dl_sync_dir_core w root.childList dest =
        dl_sync_children w root.childList dest := by
      simp [dl_sync_dir_core, hdir]
    rw [hcore]
    by_cases hch : (dl_sync_children w root.childList dest).2.1.fs
        (dest ++ [MegaNode.name root]) = w.fs (dest ++ [MegaNode.name root])
    · exact hch
    · obtain ⟨c, hmem, hle⟩ := frame_children w root.childList dest _ hch
      exact absurd (pathLe_child_eq hle) (hnames c hmem)

/-- Witness for C10: a folder link with a one-file root, against a missing
destination (fails, nothing created) and against a directory destination
(the file lands directly inside it). -/
theorem C10_folder_destination_witness :
    runMain ⟨fun _ => FType.missing, fun _ => false⟩
        ⟨fun _ _ => FetchResult.ok, fun _ => true,
         fun _ => [MegaNode.dir "root" [MegaNode.file "f" []]]⟩ false ["dl"]
        ["https://mega.nz/#F!aaaaaaaa!bbbbbbbbbbbbbbbbbbbbbb"] =
      ⟨1, ⟨fun _ => FType.missing, fun _ => false⟩,
       [Ev.openFolder "aaaaaaaa" "bbbbbbbbbbbbbbbbbbbbbb"]⟩ ∧
    (runMain ⟨fun q => if q = ["dl"] then FType.directory else FType.missing,
          fun _ => false⟩
        ⟨fun _ _ => FetchResult.ok, fun _ => true,
         fun _ => [MegaNode.dir "root" [MegaNode.file "f" []]]⟩ false ["dl"]
        ["https://mega.nz/#F!aaaaaaaa!bbbbbbbbbbbbbbbbbbbbbb"]).w.fs
      (["dl"] ++ [MegaNode.name (MegaNode.dir "root" [MegaNode.file "f" []])]) =
      (fun q => if q = ["dl"] then FType.directory else FType.missing)
        (["dl"] ++ [MegaNode.name (MegaNode.dir "root" [MegaNode.file "f" []])]) :=
  ⟨(C10_folder_destination ⟨fun _ => FType.missing, fun _ => false⟩
      ⟨fun _ _ => FetchResult.ok, fun _ => true,
       fun _ => [MegaNode.dir "root" [MegaNode.file "f" []]]⟩ ["dl"]
      "https://mega.nz/#F!aaaaaaaa!bbbbbbbbbbbbbbbbbbbbbb"
      "aaaaaaaa" "bbbbbbbbbbbbbbbbbbbbbb"
      (MegaNode.dir "root" [MegaNode.file "f" []]) (by decide) rfl rfl).1
     (Or.inl rfl),
   (C10_folder_destination ⟨fun q => if q = ["dl"] then FType.directory else FType.missing,
        fun _ => false⟩
      ⟨fun _ _ => FetchResult.ok, fun _ => true,
       fun _ => [MegaNode.dir "root" [MegaNode.file "f" []]]⟩ ["dl"]
      "https://mega.nz/#F!aaaaaaaa!bbbbbbbbbbbbbbbbbbbbbb"
      "aaaaaaaa" "bbbbbbbbbbbbbbbbbbbbbb"
      (MegaNode.dir "root" [MegaNode.file "f" []]) (by decide) rfl rfl).2.2
     (by decide) (by decide)⟩

end Megadl
